import Mathlib

/-!
Verification of the gomigrate migration engine (Go) against its
natural-language specification.

Strings are modelled at the level of `List Char` (Go operates on UTF-8
bytes; for valid UTF-8 text all the operations used here — prefix tests,
splitting on separators, whitespace trimming — agree at the character
level).  `String` wrappers are provided at the boundaries.
-/

/-- Go `strings.HasPrefix` at character level (same as `List.isPrefixOf`). -/
def isPrefixL (p s : List Char) : Bool := p.isPrefixOf s

/-- Split at the first occurrence of character `d`:
returns `none` when `d` does not occur, otherwise the parts before and
after the first occurrence.  Models the effect of Go
`strings.SplitN(s, string(d), 2)`. -/
def splitFirstAux (d : Char) : List Char → Option (List Char × List Char)
  | [] => none
  | c :: rest =>
    if c = d then some ([], rest)
    else
      match splitFirstAux d rest with
      | none => none
      | some (a, b) => some (c :: a, b)

/-- Go `strings.SplitN(s, sep, 2)` for a one-character separator. -/
def goSplitN2 (s : List Char) (d : Char) : List (List Char) :=
  match splitFirstAux d s with
  | none => [s]
  | some (a, b) => [a, b]

/-- Auxiliary for Go `strings.Split` with non-empty separator `sep`:
splits on every non-overlapping leftmost occurrence.  The `skip`
counter consumes the remaining characters of a separator occurrence
whose boundary has already been emitted (structural recursion so the
kernel can evaluate it). -/
def splitSepAux (sep : List Char) : List Char → Nat → List (List Char)
  | [], _ => [[]]
  | _ :: rest, skip + 1 => splitSepAux sep rest skip
  | c :: rest, 0 =>
    if sep.isPrefixOf (c :: rest) then
      [] :: splitSepAux sep rest (sep.length - 1)
    else
      match splitSepAux sep rest 0 with
      | [] => [[c]]
      | f :: fs => (c :: f) :: fs

/-- Go `strings.Split`.  For the empty separator Go explodes the string
into its characters (empty input giving the empty slice). -/
def goSplitL (s sep : List Char) : List (List Char) :=
  match sep with
  | [] => s.map (fun c => [c])
  | _ :: _ => splitSepAux sep s 0

/-- Whitespace predicate of Go `unicode.IsSpace` (the set trimmed by
`strings.TrimSpace`). -/
def goIsSpace (c : Char) : Bool :=
  c = ' ' || c = '\t' || c = '\n' || c = Char.ofNat 11 || c = Char.ofNat 12 ||
  c = '\r' || c = Char.ofNat 0x85 || c = Char.ofNat 0xA0 ||
  c = Char.ofNat 0x1680 || (0x2000 ≤ c.toNat && c.toNat ≤ 0x200A) ||
  c = Char.ofNat 0x2028 || c = Char.ofNat 0x2029 || c = Char.ofNat 0x202F ||
  c = Char.ofNat 0x205F || c = Char.ofNat 0x3000

/-- Go `strings.TrimSpace` at character level. -/
def goTrimSpaceL (s : List Char) : List Char :=
  ((s.dropWhile goIsSpace).reverse.dropWhile goIsSpace).reverse

/-- Hexadecimal digit value, as accepted by Go `strconv`'s unquoting. -/
def hexVal (c : Char) : Option Nat :=
  if '0' ≤ c ∧ c ≤ '9' then some (c.toNat - 48)
  else if 'a' ≤ c ∧ c ≤ 'f' then some (c.toNat - 87)
  else if 'A' ≤ c ∧ c ≤ 'F' then some (c.toNat - 55)
  else none

/-- Octal digit test. -/
def isOctDigit (c : Char) : Bool := '0' ≤ c && c ≤ '7'

/-- Valid Unicode scalar value (Go `utf8.ValidRune`). -/
def validRune (n : Nat) : Bool := n < 0xD800 || (0xE000 ≤ n && n ≤ 0x10FFFF)

/-- One escape sequence after a backslash inside a quoted Go literal
(`strconv.UnquoteChar`): returns the decoded character and how many
characters of the input it consumed.  `q` is the surrounding quote. -/
def escSeq (q : Char) (rest : List Char) : Option (Char × Nat) :=
  match rest with
  | 'a' :: _ => some (Char.ofNat 7, 1)
  | 'b' :: _ => some (Char.ofNat 8, 1)
  | 'f' :: _ => some (Char.ofNat 12, 1)
  | 'n' :: _ => some ('\n', 1)
  | 'r' :: _ => some ('\r', 1)
  | 't' :: _ => some ('\t', 1)
  | 'v' :: _ => some (Char.ofNat 11, 1)
  | '\\' :: _ => some ('\\', 1)
  | 'x' :: h1 :: h2 :: _ =>
    match hexVal h1, hexVal h2 with
    | some v1, some v2 => some (Char.ofNat (16 * v1 + v2), 3)
    | _, _ => none
  | 'u' :: h1 :: h2 :: h3 :: h4 :: _ =>
    match hexVal h1, hexVal h2, hexVal h3, hexVal h4 with
    | some v1, some v2, some v3, some v4 =>
      let v := ((v1 * 16 + v2) * 16 + v3) * 16 + v4
      if validRune v then some (Char.ofNat v, 5) else none
    | _, _, _, _ => none
  | 'U' :: h1 :: h2 :: h3 :: h4 :: h5 :: h6 :: h7 :: h8 :: _ =>
    match hexVal h1, hexVal h2, hexVal h3, hexVal h4,
          hexVal h5, hexVal h6, hexVal h7, hexVal h8 with
    | some v1, some v2, some v3, some v4, some v5, some v6, some v7, some v8 =>
      let v := ((((((v1 * 16 + v2) * 16 + v3) * 16 + v4) * 16 + v5) * 16
                 + v6) * 16 + v7) * 16 + v8
      if validRune v then some (Char.ofNat v, 9) else none
    | _, _, _, _, _, _, _, _ => none
  | d1 :: d2 :: d3 :: _ =>
    if isOctDigit d1 then
      if isOctDigit d2 ∧ isOctDigit d3 then
        let v := (d1.toNat - 48) * 64 + (d2.toNat - 48) * 8 + (d3.toNat - 48)
        if v < 256 then some (Char.ofNat v, 3) else none
      else none
    else if (d1 = '\'' ∨ d1 = '"') then
      if d1 = q then some (d1, 1) else none
    else none
  | c :: _ =>
    if isOctDigit c then none
    else if (c = '\'' ∨ c = '"') then
      if c = q then some (c, 1) else none
    else none
  | [] => none

/-- Decode the body of a single- or double-quoted Go literal
(quotes already stripped), processing escape sequences; an unescaped
occurrence of the quote character is a syntax error.  The `skip`
counter consumes the characters of an escape sequence already decoded
(structural recursion so the kernel can evaluate it). -/
def unquoteCharsAux (q : Char) : List Char → Nat → Option (List Char)
  | [], _ => some []
  | _ :: rest, skip + 1 => unquoteCharsAux q rest skip
  | '\\' :: rest, 0 =>
    match escSeq q rest with
    | none => none
    | some (c, n) =>
      match unquoteCharsAux q rest n with
      | none => none
      | some tl => some (c :: tl)
  | c :: rest, 0 =>
    if c = q then none
    else
      match unquoteCharsAux q rest 0 with
      | none => none
      | some tl => some (c :: tl)

/-- Decode a quoted-literal body, starting outside any escape sequence. -/
def unquoteChars (q : Char) (body : List Char) : Option (List Char) :=
  unquoteCharsAux q body 0

/-- Go `strconv.Unquote` at character level: accepts a backquoted raw
string (no backquote inside, carriage returns discarded) or a single- or
double-quoted literal with escape processing; `none` models the error
return. -/
def goUnquote (s : List Char) : Option (List Char) :=
  match s with
  | [] => none
  | [_] => none
  | q :: rest =>
    match rest.getLast? with
    | none => none
    | some l =>
      if l ≠ q then none
      else
        let body := rest.dropLast
        if q = '`' then
          if '`' ∈ body then none
          else some (body.filter (fun c => c ≠ '\r'))
        else if q = '"' ∨ q = '\'' then
          if '\n' ∈ body then none
          else
            match unquoteChars q body with
            | none => none
            | some out =>
              if q = '\'' ∧ out.length ≠ 1 then none else some out
        else none

/-- The literal prefix `"delimiter "` checked by the MySQL-family splitter. -/
def delimPrefix : List Char := "delimiter ".data

/-- Character-level embedding of `Mysql.GetMigrationCommands`
(src/unnamed/part_000 lines 76–99, identical to `MySQL.GetMigrationCommands`
in src/db.go lines 92–115): if the script starts with `delimiter `, the
rest of the first line (trimmed, unquoted when it parses as a Go quoted
literal) becomes the delimiter and the first line is stripped; the
(remaining) script is split on the delimiter, which defaults to `;`. -/
def mysqlGetMigrationCommandsL (sql : List Char) : List (List Char) :=
  if isPrefixL delimPrefix sql then
    let contentSplit := goSplitN2 (sql.drop delimPrefix.length) '\n'
    let delimiter0 := goTrimSpaceL (contentSplit.headD [])
    let sql2 := if contentSplit.length > 1 then contentSplit.getD 1 [] else []
    let delimiter :=
      match goUnquote delimiter0 with
      | some d => d
      | none => delimiter0
    goSplitL sql2 delimiter
  else
    goSplitL sql [';']

/-- String-level wrapper for the MySQL-family splitter. -/
def mysqlGetMigrationCommands (sql : String) : List String :=
  (mysqlGetMigrationCommandsL sql.data).map (fun l => ⟨l⟩)

/-- The first line of a script (the whole script when it has no newline). -/
def firstLineL (s : List Char) : List Char :=
  match splitFirstAux '\n' s with
  | none => s
  | some (a, _) => a

/-- Everything after the first newline (empty when there is none). -/
def afterFirstLineL (s : List Char) : List Char :=
  match splitFirstAux '\n' s with
  | none => []
  | some (_, b) => b

/-- The MySQL-family splitting policy as the specification words it:
look at the script's *first line*; if it begins with `delimiter `,
the remainder of that line — trimmed, and unquoted when it parses as a
quoted literal — becomes the delimiter and the first line is stripped;
otherwise the whole script is split on `;`. -/
def mysqlGetMigrationCommandsSpecL (script : List Char) : List (List Char) :=
  let fl := firstLineL script
  if isPrefixL delimPrefix fl then
    let raw := goTrimSpaceL (fl.drop delimPrefix.length)
    let delimiter :=
      match goUnquote raw with
      | some d => d
      | none => raw
    goSplitL (afterFirstLineL script) delimiter
  else
    goSplitL script [';']

/-- String-level wrapper for the specification-side splitter. -/
def mysqlGetMigrationCommandsSpec (script : String) : List String :=
  (mysqlGetMigrationCommandsSpecL script.data).map (fun l => ⟨l⟩)

/-- Substring test used to state that no produced fragment mentions the
directive line. -/
def containsSub (s pat : List Char) : Bool :=
  match s with
  | [] => pat.isPrefixOf []
  | _ :: rest => pat.isPrefixOf s || containsSub rest pat

lemma splitFirstAux_eq_some {d : Char} :
    ∀ {s a b : List Char}, splitFirstAux d s = some (a, b) → s = a ++ d :: b := by
  intro s
  induction s with
  | nil => intro a b h; simp [splitFirstAux] at h
  | cons c rest ih =>
    intro a b h
    by_cases hc : c = d
    · simp only [splitFirstAux, if_pos hc] at h
      obtain ⟨ha, hb⟩ := Option.some.inj h |> Prod.mk.inj
      subst ha; subst hb; subst hc; rfl
    · simp only [splitFirstAux, if_neg hc] at h
      cases hr : splitFirstAux d rest with
      | none => rw [hr] at h; exact absurd h (by simp)
      | some ab =>
        rw [hr] at h
        obtain ⟨x, y⟩ := ab
        obtain ⟨ha, hb⟩ := Option.some.inj h |> Prod.mk.inj
        subst hb
        rw [← ha, List.cons_append, ih hr]

lemma isPrefixOf_append_cons {c : Char} :
    ∀ {p : List Char}, ∀ (a b : List Char), c ∉ p →
      p.isPrefixOf (a ++ c :: b) = p.isPrefixOf a := by
  intro p
  induction p with
  | nil => intro a b _; simp [List.isPrefixOf]
  | cons x p ih =>
    intro a b hc
    have hx : ¬(x = c) := fun h => hc (by simp [h])
    have hp : c ∉ p := fun h => hc (List.mem_cons_of_mem _ h)
    cases a with
    | nil => simp [List.isPrefixOf, hx]
    | cons y a => simp [List.isPrefixOf, ih a b hp]

lemma splitFirstAux_append {d : Char} :
    ∀ {p : List Char}, d ∉ p → ∀ (t : List Char),
      splitFirstAux d (p ++ t)
        = (splitFirstAux d t).map (fun ab => (p ++ ab.1, ab.2)) := by
  intro p
  induction p with
  | nil =>
    intro _ t
    cases hh : splitFirstAux d t <;> simp [hh]
  | cons x p ih =>
    intro hd t
    have hx : ¬(x = d) := fun h => hd (by simp [h])
    have hp : d ∉ p := fun h => hd (List.mem_cons_of_mem _ h)
    cases hh : splitFirstAux d t with
    | none =>
      have h2 : splitFirstAux d (p ++ t) = none := by rw [ih hp t, hh]; rfl
      simp [splitFirstAux, hx, h2, hh]
    | some ab =>
      have h2 : splitFirstAux d (p ++ t) = some (p ++ ab.1, ab.2) := by
        rw [ih hp t, hh]; rfl
      simp [splitFirstAux, hx, h2, hh]

lemma newline_not_mem_delimPrefix : '\n' ∉ delimPrefix := by decide

/-- The source splitter and the specification-worded splitter agree on
every script, at character-list level. -/
lemma mysqlGetMigrationCommandsL_eq_spec (s : List Char) :
    mysqlGetMigrationCommandsL s = mysqlGetMigrationCommandsSpecL s := by
  by_cases hp : isPrefixL delimPrefix s = true
  · have hpre : delimPrefix <+: s := by
      simpa [isPrefixL, List.isPrefixOf_iff_prefix] using hp
    obtain ⟨t, rfl⟩ := hpre
    have hdrop : (delimPrefix ++ t).drop delimPrefix.length = t := List.drop_left _ _
    cases hsf : splitFirstAux '\n' t with
    | none =>
      have hsfs : splitFirstAux '\n' (delimPrefix ++ t) = none := by
        rw [splitFirstAux_append newline_not_mem_delimPrefix t, hsf]; rfl
      simp only [mysqlGetMigrationCommandsL, mysqlGetMigrationCommandsSpecL,
        firstLineL, afterFirstLineL, goSplitN2, hsf, hsfs, hdrop, hp, if_true]
      simp
    | some ab =>
      obtain ⟨x, b⟩ := ab
      have hsfs : splitFirstAux '\n' (delimPrefix ++ t)
          = some (delimPrefix ++ x, b) := by
        rw [splitFirstAux_append newline_not_mem_delimPrefix t, hsf]; rfl
      have hfl : isPrefixL delimPrefix (delimPrefix ++ x) = true := by
        simp [isPrefixL, List.isPrefixOf_iff_prefix]
      simp only [mysqlGetMigrationCommandsL, mysqlGetMigrationCommandsSpecL,
        firstLineL, afterFirstLineL, goSplitN2, hsf, hsfs, hdrop, hp, hfl, if_true,
        List.drop_left]
      simp
  · have hp' : isPrefixL delimPrefix s = false := by
      cases hb : isPrefixL delimPrefix s
      · rfl
      · exact absurd hb hp
    cases hsf : splitFirstAux '\n' s with
    | none =>
      simp only [mysqlGetMigrationCommandsL, mysqlGetMigrationCommandsSpecL,
        firstLineL, hsf, hp', Bool.false_eq_true, if_false]
    | some ab =>
      obtain ⟨a, b⟩ := ab
      have hs : s = a ++ '\n' :: b := splitFirstAux_eq_some hsf
      have hfl : isPrefixL delimPrefix a = false := by
        have := isPrefixOf_append_cons a b newline_not_mem_delimPrefix
        rw [hs] at hp'
        unfold isPrefixL at *
        rw [← this]
        exact hp'
      simp only [mysqlGetMigrationCommandsL, mysqlGetMigrationCommandsSpecL,
        firstLineL, hsf, hp', hfl, Bool.false_eq_true, if_false]

/-- C3: the MySQL-family splitting function honours the delimiter
directive exactly as the specification words it (first line beginning
with the literal `delimiter ` prefix sets the — trimmed and, when it
parses as a Go quoted literal, unquoted — delimiter and is stripped;
otherwise the whole script splits on `;`), and on the concrete example
script the result is exactly two non-empty statements with no fragment
containing the directive. -/
theorem c3_mysql_split_directive :
    (∀ s : String, mysqlGetMigrationCommands s = mysqlGetMigrationCommandsSpec s) ∧
    mysqlGetMigrationCommands "delimiter #\nCREATE TABLE t(x int)#CREATE TABLE u(y int)#"
      = ["CREATE TABLE t(x int)", "CREATE TABLE u(y int)", ""] ∧
    ((mysqlGetMigrationCommands
        "delimiter #\nCREATE TABLE t(x int)#CREATE TABLE u(y int)#").filter
        (fun c => c ≠ "")).length = 2 ∧
    ((mysqlGetMigrationCommands
        "delimiter #\nCREATE TABLE t(x int)#CREATE TABLE u(y int)#").all
        (fun frag => !(containsSub frag.data "delimiter".data))) = true := by
  refine ⟨fun s => ?_, by decide, by decide, by decide⟩
  unfold mysqlGetMigrationCommands mysqlGetMigrationCommandsSpec
  rw [mysqlGetMigrationCommandsL_eq_spec]

/-- Migration status constants (src/migration.go lines 12–15, Go `iota`). -/
def Inactive : Int := 0

/-- Status value of an applied migration. -/
def Active : Int := 1

/-- One migration record (src/migration.go lines 18–25). -/
structure Migration where
  ID : Nat
  Name : String
  Status : Int
  Up : String
  Down : String
  Source : String
deriving DecidableEq

/-- Migration direction (`migrationType` in src/gomigrate.go lines 13–18). -/
inductive MigrationType where
  | up
  | down
deriving DecidableEq

/-- Dialect adapters (src/db.go / src/unnamed/part_000): only the
statement-splitting policy differs between them; the MySQL family splits,
every other adapter returns the script as one statement. -/
inductive Adapter where
  | postgres
  | cockroach
  | mysql
  | mariadb
  | sqlite3
  | mssql
deriving DecidableEq

/-- `GetMigrationCommands` of each adapter. -/
def Adapter.getMigrationCommands : Adapter → String → List String
  | .mysql, s => mysqlGetMigrationCommands s
  | .mariadb, s => mysqlGetMigrationCommands s
  | _, s => [s]

/-- Response of the external database capability to one fallible
operation, consumed in call order: success with a `nil` statement result,
success with a non-nil result (so `RowsAffected` is consulted), or a
failure carrying an opaque error identity. -/
inductive Resp where
  | okNil
  | okRes
  | fail (e : Nat)
deriving DecidableEq

/-- Errors visible to callers of the engine. -/
inductive Err where
  | dbErr (e : Nat)
  | invalidMigrationType
  | invalidMigrationPair
deriving DecidableEq

/-- Result of an operation: normal value, returned error, or a Go
runtime panic (out-of-range slice index). -/
inductive Outcome (α : Type) where
  | ok (a : α)
  | err (e : Err)
  | crash (msg : String)
deriving DecidableEq

/-- Committed database side effects, in order of occurrence. -/
inductive Event where
  | exec (cmd : String)
  | logInsert (id : Nat)
  | logDelete (id : Nat)
  | createTable
deriving DecidableEq

/-- Logging levels of the `Logger` interface actually used. -/
inductive LogLevel where
  | print
  | printf
  | fatalf
deriving DecidableEq

/-- The external world: the oracle stream of responses for fallible
database operations (an exhausted stream answers `okNil`, i.e. success),
the committed database state (metadata-table existence, applied
migration ids, side-effect trace), the log, and a count of opened
transactions. -/
structure World where
  resps : List Resp
  tableExists : Bool
  applied : List Nat
  events : List Event
  logs : List (LogLevel × String)
  began : Nat
deriving DecidableEq

/-- Consume the next oracle response (success once the stream is spent). -/
def popResp (w : World) : Resp × World :=
  match w.resps with
  | [] => (Resp.okNil, w)
  | r :: rs => (r, { w with resps := rs })

/-- Append a log line. -/
def logMsg (w : World) (lvl : LogLevel) (s : String) : World :=
  { w with logs := w.logs ++ [(lvl, s)] }

/-- The Migrator: its migration collection (the Go `map[uint64]*Migration`,
modelled as a list; map iteration order, which Go leaves unspecified, is
resolved to list order) and its dialect adapter. -/
structure Migrator where
  migrations : List Migration
  adapter : Adapter
deriving DecidableEq

/-- `Migrator.MigrationTableExists` (src/gomigrate.go lines 47–61):
queries for the metadata table; "no rows" is the normal negative answer,
any other query failure is surfaced. -/
def Migrator.migrationTableExists (_ : Migrator) (w : World) : Outcome Bool × World :=
  match popResp w with
  | (.fail e, w) => (.err (.dbErr e), logMsg w .printf "Error checking for migration table")
  | (_, w) =>
    if w.tableExists then (.ok true, logMsg w .print "Migrations table found")
    else (.ok false, logMsg w .print "Migrations table not found")

/-- `Migrator.CreateMigrationsTable` (src/gomigrate.go lines 64–73):
executes the creation statement; on failure it calls `Logger.Fatalf`
(with the default logger the process exits there; modelled as a
non-exiting `Logger` implementation, after which control continues) and
in all cases the function returns `nil`. -/
def Migrator.createMigrationsTable (_ : Migrator) (w : World) : Outcome Unit × World :=
  match popResp w with
  | (.fail _, w) =>
    (.ok (), logMsg (logMsg w .fatalf "Error creating migrations table")
      .printf "Created migrations table")
  | (_, w) =>
    (.ok (), logMsg { w with tableExists := true, events := w.events ++ [.createTable] }
      .printf "Created migrations table")

/-- Loop of `Migrator.getMigrationStatuses` (src/gomigrate.go lines
148–167): one status query per migration; a found row makes the
in-memory status Active, "no rows" leaves it unchanged, any other
failure aborts (keeping the statuses already refreshed). -/
def getMigrationStatusesAux (w : World) : List Migration → Outcome Unit × List Migration × World
  | [] => (.ok (), [], w)
  | g :: gs =>
    match popResp w with
    | (.fail e, w) => (.err (.dbErr e), g :: gs, logMsg w .printf "Error getting migration status")
    | (_, w) =>
      let g2 := if g.ID ∈ w.applied then { g with Status := Active } else g
      match getMigrationStatusesAux w gs with
      | (out, gs2, w2) => (out, g2 :: gs2, w2)

/-- `Migrator.getMigrationStatuses`. -/
def Migrator.getMigrationStatuses (m : Migrator) (w : World) : Outcome Unit × Migrator × World :=
  match getMigrationStatusesAux w m.migrations with
  | (out, gs, w) => (out, { m with migrations := gs }, w)

/-- Status filter of `Migrator.Migrations`: `-1` selects everything. -/
def statusMatches (status : Int) (g : Migration) : Bool :=
  status == -1 || g.Status == status

/-- `Migrator.Migrations` (src/gomigrate.go lines 171–189): the
migrations with the given status, in ascending id order.  The source
sorts the map keys with `sort.Sort(uint64slice(ids))`; `uint64slice` is
not part of the provided sources, so, following the specification, the
order is ascending numeric id order. -/
def Migrator.Migrations (m : Migrator) (status : Int) : List Migration :=
  (List.insertionSort (fun a b => a.ID ≤ b.ID) m.migrations).filter (statusMatches status)

/-- The script of the requested direction. -/
def scriptFor (g : Migration) (t : MigrationType) : String :=
  match t with
  | .up => g.Up
  | .down => g.Down

/-- Set the in-memory status of the migration with the given id
(the Go code mutates the pointed-to `Migration`). -/
def setStatus (m : Migrator) (id : Nat) (s : Int) : Migrator :=
  { m with migrations := m.migrations.map (fun g => if g.ID = id then { g with Status := s } else g) }

/-- `transaction.Rollback` handling shared by all failure paths of
`ApplyMigration`: a rollback failure is returned in place of the
original error. -/
def rollbackTx (w : World) (origErr : Nat) : Err × World :=
  match popResp w with
  | (.fail re, w) => (.dbErr re, logMsg w .printf "Error rolling back transaction")
  | (_, w) => (.dbErr origErr, w)

/-- Statement loop of `ApplyMigration` (src/gomigrate.go lines 212–234):
executes each command inside the transaction, accumulating the
transaction's (not yet committed) side effects; an execution or
`RowsAffected` failure rolls the transaction back, a rollback failure
taking precedence as the reported error. -/
def execCmds (w : World) (acc : List Event) : List String → Outcome (List Event) × World
  | [] => (.ok acc, w)
  | cmd :: rest =>
    match popResp w with
    | (.fail e, w) =>
      let w := logMsg w .printf "Error executing migration"
      match rollbackTx w e with
      | (er, w) => (.err er, w)
    | (.okNil, w) => execCmds w (acc ++ [.exec cmd]) rest
    | (.okRes, w) =>
      match popResp w with
      | (.fail e2, w) =>
        let w := logMsg w .printf "Error getting rows affected"
        match rollbackTx w e2 with
        | (er, w) => (.err er, w)
      | (_, w) => execCmds (logMsg w .printf "Rows affected") (acc ++ [.exec cmd]) rest

/-- The bookkeeping event of a migration application. -/
def logEvent (g : Migration) (t : MigrationType) : Event :=
  match t with
  | .up => .logInsert g.ID
  | .down => .logDelete g.ID

/-- The committed side effects of one successful migration application:
its statements in order, then its metadata-table insert/delete. -/
def txBlock (a : Adapter) (g : Migration) (t : MigrationType) : List Event :=
  (a.getMigrationCommands (scriptFor g t)).map Event.exec ++ [logEvent g t]

/-- The status written after a successful commit. -/
def statusAfter (t : MigrationType) : Int :=
  match t with
  | .up => Active
  | .down => Inactive

/-- Effect of the committed bookkeeping row on the applied-id set. -/
def appliedAfter (t : MigrationType) (id : Nat) (applied : List Nat) : List Nat :=
  match t with
  | .up => if id ∈ applied then applied else applied ++ [id]
  | .down => applied.filter (fun i => i ≠ id)

/-- `Migrator.ApplyMigration` (src/gomigrate.go lines 192–269): select
the requested direction's script (failing with the invalid-migration-type
error when it is empty, before any database interaction), begin a
transaction, execute the split commands, write the bookkeeping row,
commit, and only then update the in-memory status. -/
def Migrator.applyMigration (m : Migrator) (g : Migration) (t : MigrationType) (w : World) :
    Outcome Unit × Migrator × World :=
  let w := logMsg w .printf "Applying migration"
  if scriptFor g t = "" then (.err .invalidMigrationType, m, w)
  else
    let w := { w with began := w.began + 1 }
    match popResp w with
    | (.fail e, w) => (.err (.dbErr e), m, logMsg w .printf "Error opening transaction")
    | (_, w) =>
      match execCmds w [] (m.adapter.getMigrationCommands (scriptFor g t)) with
      | (.err er, w) => (.err er, m, w)
      | (.crash s, w) => (.crash s, m, w)
      | (.ok txEvents, w) =>
        match popResp w with
        | (.fail e, w) =>
          let w := logMsg w .printf "Error logging migration"
          match rollbackTx w e with
          | (er, w) => (.err er, m, w)
        | (_, w) =>
          match popResp w with
          | (.fail e, w) => (.err (.dbErr e), m, logMsg w .printf "Error commiting transaction")
          | (_, w) =>
            let w := { w with
              events := w.events ++ (txEvents ++ [logEvent g t]),
              applied := appliedAfter t g.ID w.applied }
            (.ok (), setStatus m g.ID (statusAfter t), w)

/-- Application loop of `Migrator.Migrate` (src/gomigrate.go lines
137–141): apply each pending migration upward, stopping at the first
failure. -/
def Migrator.migrateLoop : Migrator → World → List Migration → Outcome Unit × Migrator × World
  | m, w, [] => (.ok (), m, w)
  | m, w, g :: gs =>
    match m.applyMigration g .up w with
    | (.ok _, m2, w2) => Migrator.migrateLoop m2 w2 gs
    | r => r

/-- `Migrator.Migrate` (src/gomigrate.go lines 123–144): ensure the
metadata table exists, refresh statuses from the database, then apply
every Inactive migration in ascending id order. -/
def Migrator.migrate (m : Migrator) (w : World) : Outcome Unit × Migrator × World :=
  match m.migrationTableExists w with
  | (.err e, w) => (.err e, m, w)
  | (.crash s, w) => (.crash s, m, w)
  | (.ok te, w) =>
    match (if te then (Outcome.ok (), w) else m.createMigrationsTable w) with
    | (.err e, w) => (.err e, m, w)
    | (.crash s, w) => (.crash s, m, w)
    | (.ok _, w) =>
      match m.getMigrationStatuses w with
      | (.ok _, m, w) => m.migrateLoop w (m.Migrations Inactive)
      | (out, m, w) => (out, m, w)

/-- Default value used to model a Go out-of-range slice access (never
reached on in-range indices). -/
def defaultMigration : Migration :=
  { ID := 0, Name := "", Status := 0, Up := "", Down := "", Source := "" }

/-- Rollback loop of `Migrator.RollbackN` (src/gomigrate.go lines
288–294): `for i := len(migrations) - 1; i != lastMigration; i--`, with
`migrations[i]` panicking when `i` leaves the slice bounds.  The loop
index `i` is encoded as the natural number `j = i + 1` (the index only
ever decreases by one, so the loop reaches `i = -1`, i.e. `j = 0`,
before any lower value; there, if `-1` is not the stop value
`lastMigration`, the Go code accesses `migrations[-1]` and panics). -/
def Migrator.rollbackLoop (m : Migrator) (w : World) (migs : List Migration) (last : Int) :
    Nat → Outcome Unit × Migrator × World
  | 0 =>
    if (-1 : Int) = last then (.ok (), m, w)
    else (.crash "runtime error: index out of range", m, w)
  | j + 1 =>
    if (j : Int) = last then (.ok (), m, w)
    else if (migs.length : Int) ≤ (j : Int) then
      (.crash "runtime error: index out of range", m, w)
    else
      match m.applyMigration (migs.getD j defaultMigration) .down w with
      | (.ok _, m2, w2) => Migrator.rollbackLoop m2 w2 migs last j
      | r => r

/-- `Migrator.RollbackN` (src/gomigrate.go lines 277–297): refresh
statuses, take the Active migrations in ascending id order, and apply
them downward from the end (`i = len - 1`, i.e. loop counter
`j = len`) until the index reaches `len(migrations) - 1 - n`. -/
def Migrator.rollbackN (m : Migrator) (n : Int) (w : World) : Outcome Unit × Migrator × World :=
  match m.getMigrationStatuses w with
  | (.ok _, m, w) =>
    let migrations := m.Migrations Active
    if migrations.length = 0 then (.ok (), m, w)
    else
      m.rollbackLoop w migrations ((migrations.length : Int) - 1 - n) migrations.length
  | (out, m, w) => (out, m, w)

/-- `Migrator.Rollback` (src/gomigrate.go lines 272–274). -/
def Migrator.rollback (m : Migrator) (w : World) : Outcome Unit × Migrator × World :=
  m.rollbackN 1 w

/-- In-memory statuses after a fully successful status refresh: exactly
the ids recorded in the applied set are promoted to Active, nothing is
ever demoted. -/
def syncStatuses (migs : List Migration) (applied : List Nat) : List Migration :=
  migs.map (fun g => if g.ID ∈ applied then { g with Status := Active } else g)

/-- The base name of a path: everything after the last `/`. -/
def basenameL (p : List Char) : List Char :=
  (p.reverse.takeWhile (fun c => c ≠ '/')).reverse

/-- Numeric value of a digit run. -/
def natOfDigits (ds : List Char) : Nat :=
  ds.foldl (fun n c => 10 * n + (c.toNat - 48)) 0

/-- Modelled from the spec: `parseMigrationPath` is called by
`MigrationsFromPath` (src/migration.go line 88) but its definition is not
among the provided sources.  Per the specification's file-naming
contract, a migration file name must match `{id}_{name}_{up|down}.sql`
with `id` an unsigned integer; anything else is rejected (and then
skipped by the loader).  Returns the id, the direction and the name. -/
def parseMigrationPathL (p : List Char) : Option (Nat × MigrationType × List Char) :=
  let base := basenameL p
  let digits := base.takeWhile Char.isDigit
  let rest := base.dropWhile Char.isDigit
  if digits = [] then none
  else
    match rest with
    | '_' :: rest2 =>
      if "_up.sql".data.isSuffixOf rest2 then
        let name := rest2.take (rest2.length - "_up.sql".data.length)
        if name = [] then none else some (natOfDigits digits, .up, name)
      else if "_down.sql".data.isSuffixOf rest2 then
        let name := rest2.take (rest2.length - "_down.sql".data.length)
        if name = [] then none else some (natOfDigits digits, .down, name)
      else none
    | _ => none

/-- String-level wrapper of the file-name parser. -/
def parseMigrationPath (p : String) : Option (Nat × MigrationType × String) :=
  (parseMigrationPathL p.data).map (fun r => (r.1, r.2.1, ⟨r.2.2⟩))

/-- Merging a second file with an already-seen id (src/migration.go lines
102–108): the new path is appended to the provenance string after a
single space and the file's direction script is filled in; the stored
name is untouched (no check that the name components agree). -/
def fillMigration (g : Migration) (t : MigrationType) (sql path : String) : Migration :=
  { g with
    Source := g.Source ++ " " ++ path,
    Up := if t = .up then sql else g.Up,
    Down := if t = .down then sql else g.Down }

/-- A freshly created migration from its first seen file
(src/migration.go lines 109–122). -/
def newMigration (num : Nat) (name : String) (t : MigrationType) (sql path : String) : Migration :=
  { ID := num, Name := name, Status := Inactive,
    Up := if t = .up then sql else "",
    Down := if t = .down then sql else "",
    Source := path }

/-- One step of the loader's fold over the globbed files (a pair of the
matched path and the file's contents); files whose names do not parse
are skipped. -/
def loadStep (acc : List (Nat × Migration)) (f : String × String) : List (Nat × Migration) :=
  match parseMigrationPath f.1 with
  | none => acc
  | some (num, t, name) =>
    match acc.lookup num with
    | some _ => acc.map (fun p => if p.1 = num then (p.1, fillMigration p.2 t f.2 f.1) else p)
    | none => acc ++ [(num, newMigration num name t f.2 f.1)]

/-- `Migration.Validate` (src/migration.go lines 28–44). -/
def Migration.Validate (g : Migration) : Bool :=
  decide (g.ID ≠ 0) && decide (g.Name ≠ "")

/-- `MigrationsFromPath` (src/migration.go lines 70–142).  The function
first indexes `path[len(path)-1]` to normalise the directory path — an
out-of-range access (runtime panic) when the path is empty — and only
then consults the filesystem.  The filesystem is modelled by `files`,
the list of (path, contents) pairs the glob over the directory returns
(`filepath.Glob` reports matches in sorted order); reading a discovered
file is assumed to succeed.  Files whose names do not match the naming
contract are skipped; pairs are merged by id (first file seen fixes id
and name); every resulting migration is validated, a failure aborting
with the invalid-pair error.  The Go map's unspecified iteration order
for the result slice is resolved to first-seen order. -/
def MigrationsFromPath (path : String) (files : List (String × String)) :
    Outcome (List Migration) :=
  if path.data.length = 0 then .crash "runtime error: index out of range"
  else
    let migs := (files.foldl loadStep []).map (fun p => p.2)
    if migs.all Migration.Validate then .ok migs
    else .err .invalidMigrationPair

/-- The database-visible part of the world (everything except the
response stream and the log). -/
def dbPart (w : World) : Bool × List Nat × List Event × Nat :=
  (w.tableExists, w.applied, w.events, w.began)

lemma dbPart_popResp (w : World) : dbPart (popResp w).2 = dbPart w := by
  cases h : w.resps <;> simp [popResp, h, dbPart]

lemma dbPart_logMsg (w : World) (lvl : LogLevel) (s : String) :
    dbPart (logMsg w lvl s) = dbPart w := by
  simp [logMsg, dbPart]

lemma dbPart_rollbackTx (w : World) (e : Nat) : dbPart (rollbackTx w e).2 = dbPart w := by
  unfold rollbackTx
  rcases h : popResp w with ⟨r, w1⟩
  have hd : dbPart w1 = dbPart w := by
    have := dbPart_popResp w; rw [h] at this; exact this
  cases r <;> simp [dbPart_logMsg, hd]

lemma rollbackTx_err (w : World) (e : Nat) : ∃ k, (rollbackTx w e).1 = Err.dbErr k := by
  unfold rollbackTx
  rcases h : popResp w with ⟨r, w1⟩
  cases r <;> simp

lemma dbPart_execCmds : ∀ (cmds : List String) (w : World) (acc : List Event),
    dbPart (execCmds w acc cmds).2 = dbPart w := by
  intro cmds
  induction cmds with
  | nil => intro w acc; simp [execCmds]
  | cons cmd rest ih =>
    intro w acc
    rcases h1 : popResp w with ⟨r, w1⟩
    have hd1 : dbPart w1 = dbPart w := by
      have := dbPart_popResp w; rw [h1] at this; exact this
    cases r with
    | fail e =>
      rcases h2 : rollbackTx (logMsg w1 .printf "Error executing migration") e with ⟨er, w2⟩
      have hd2 := dbPart_rollbackTx (logMsg w1 .printf "Error executing migration") e
      rw [h2] at hd2
      simp only [dbPart_logMsg] at hd2
      simp only [execCmds, h1, h2]
      exact hd2.trans hd1
    | okNil =>
      simp only [execCmds, h1]
      exact (ih w1 (acc ++ [.exec cmd])).trans hd1
    | okRes =>
      rcases h2 : popResp w1 with ⟨r2, w2⟩
      have hd2 : dbPart w2 = dbPart w1 := by
        have := dbPart_popResp w1; rw [h2] at this; exact this
      cases r2 with
      | fail e2 =>
        rcases h3 : rollbackTx (logMsg w2 .printf "Error getting rows affected") e2 with ⟨er, w3⟩
        have hd3 := dbPart_rollbackTx (logMsg w2 .printf "Error getting rows affected") e2
        rw [h3] at hd3
        simp only [dbPart_logMsg] at hd3
        simp only [execCmds, h1, h2, h3]
        exact hd3.trans (hd2.trans hd1)
      | okNil =>
        simp only [execCmds, h1, h2]
        have := ih (logMsg w2 .printf "Rows affected") (acc ++ [.exec cmd])
        simp only [dbPart_logMsg] at this
        exact this.trans (hd2.trans hd1)
      | okRes =>
        simp only [execCmds, h1, h2]
        have := ih (logMsg w2 .printf "Rows affected") (acc ++ [.exec cmd])
        simp only [dbPart_logMsg] at this
        exact this.trans (hd2.trans hd1)

lemma execCmds_ok_events : ∀ (cmds : List String) (w : World) (acc evs : List Event) (w2 : World),
    execCmds w acc cmds = (.ok evs, w2) → evs = acc ++ cmds.map Event.exec := by
  intro cmds
  induction cmds with
  | nil => intro w acc evs w2 h; simp [execCmds] at h; simp [h.1.symm]
  | cons cmd rest ih =>
    intro w acc evs w2 h
    rcases h1 : popResp w with ⟨r, w1⟩
    cases r with
    | fail e =>
      rcases h2 : rollbackTx (logMsg w1 .printf "Error executing migration") e with ⟨er, w3⟩
      simp only [execCmds, h1, h2] at h
      simp at h
    | okNil =>
      simp only [execCmds, h1] at h
      rw [ih w1 (acc ++ [.exec cmd]) evs w2 h]; simp
    | okRes =>
      rcases h2 : popResp w1 with ⟨r2, w2s⟩
      cases r2 with
      | fail e2 =>
        rcases h3 : rollbackTx (logMsg w2s .printf "Error getting rows affected") e2 with ⟨er, w3⟩
        simp only [execCmds, h1, h2, h3] at h
        simp at h
      | okNil =>
        simp only [execCmds, h1, h2] at h
        rw [ih (logMsg w2s .printf "Rows affected") (acc ++ [.exec cmd]) evs w2 h]; simp
      | okRes =>
        simp only [execCmds, h1, h2] at h
        rw [ih (logMsg w2s .printf "Rows affected") (acc ++ [.exec cmd]) evs w2 h]; simp

lemma execCmds_shape : ∀ (cmds : List String) (w : World) (acc : List Event),
    (∃ evs, (execCmds w acc cmds).1 = .ok evs) ∨ (∃ k, (execCmds w acc cmds).1 = .err (.dbErr k)) := by
  intro cmds
  induction cmds with
  | nil => intro w acc; left; exact ⟨acc, by simp [execCmds]⟩
  | cons cmd rest ih =>
    intro w acc
    rcases h1 : popResp w with ⟨r, w1⟩
    cases r with
    | fail e =>
      obtain ⟨k, hk⟩ := rollbackTx_err (logMsg w1 .printf "Error executing migration") e
      rcases h2 : rollbackTx (logMsg w1 .printf "Error executing migration") e with ⟨er, w3⟩
      rw [h2] at hk
      simp at hk
      right
      refine ⟨k, ?_⟩
      simp only [execCmds, h1, h2]
      simp [hk]
    | okNil =>
      simp only [execCmds, h1]
      exact ih w1 (acc ++ [.exec cmd])
    | okRes =>
      rcases h2 : popResp w1 with ⟨r2, w2⟩
      cases r2 with
      | fail e2 =>
        obtain ⟨k, hk⟩ := rollbackTx_err (logMsg w2 .printf "Error getting rows affected") e2
        rcases h3 : rollbackTx (logMsg w2 .printf "Error getting rows affected") e2 with ⟨er, w3⟩
        rw [h3] at hk
        simp at hk
        right
        refine ⟨k, ?_⟩
        simp only [execCmds, h1, h2, h3]
        simp [hk]
      | okNil =>
        simp only [execCmds, h1, h2]
        exact ih (logMsg w2 .printf "Rows affected") (acc ++ [.exec cmd])
      | okRes =>
        simp only [execCmds, h1, h2]
        exact ih (logMsg w2 .printf "Rows affected") (acc ++ [.exec cmd])

lemma dbPart_fields {w w2 : World} (h : dbPart w2 = dbPart w) :
    w2.tableExists = w.tableExists ∧ w2.applied = w.applied ∧
    w2.events = w.events ∧ w2.began = w.began := by
  simpa [dbPart, Prod.ext_iff] using h

/-- Dichotomy for `ApplyMigration`: either it succeeds — and then the
in-memory status is set, the transaction's events are committed in
order and the applied-id set is updated — or it returns an error and
leaves the migrator and the committed database state untouched. -/
lemma applyMigration_cases (m : Migrator) (g : Migration) (t : MigrationType) (w : World) :
    ((m.applyMigration g t w).1 = .ok () ∧
      (m.applyMigration g t w).2.1 = setStatus m g.ID (statusAfter t) ∧
      (m.applyMigration g t w).2.2.events = w.events ++ txBlock m.adapter g t ∧
      (m.applyMigration g t w).2.2.applied = appliedAfter t g.ID w.applied ∧
      (m.applyMigration g t w).2.2.tableExists = w.tableExists) ∨
    ((∃ e, (m.applyMigration g t w).1 = .err e) ∧
      (m.applyMigration g t w).2.1 = m ∧
      (m.applyMigration g t w).2.2.events = w.events ∧
      (m.applyMigration g t w).2.2.applied = w.applied ∧
      (m.applyMigration g t w).2.2.tableExists = w.tableExists) := by
  by_cases hs : scriptFor g t = ""
  · right
    simp [Migrator.applyMigration, hs, logMsg]
  · have hdB : dbPart { logMsg w .printf "Applying migration" with
        began := (logMsg w .printf "Applying migration").began + 1 }
        = (w.tableExists, w.applied, w.events, w.began + 1) := by
      simp [logMsg, dbPart]
    rcases hb : popResp { logMsg w .printf "Applying migration" with
        began := (logMsg w .printf "Applying migration").began + 1 } with ⟨r, w2⟩
    have hd2 : dbPart w2 = (w.tableExists, w.applied, w.events, w.began + 1) := by
      have := dbPart_popResp { logMsg w .printf "Applying migration" with
        began := (logMsg w .printf "Applying migration").began + 1 }
      rw [hb] at this
      exact this.trans hdB
    have hd2f : w2.tableExists = w.tableExists ∧ w2.applied = w.applied ∧
        w2.events = w.events := by
      simp [dbPart, Prod.ext_iff] at hd2
      exact ⟨hd2.1, hd2.2.1, hd2.2.2.1⟩
    cases r with
    | fail e =>
      right
      simp only [Migrator.applyMigration, if_neg hs, hb]
      simp [logMsg, hd2f.1, hd2f.2.1, hd2f.2.2]
    | okRes =>
      -- the Begin response is only checked for failure; okRes behaves as success
      rcases hex : execCmds w2 [] (m.adapter.getMigrationCommands (scriptFor g t)) with ⟨exOut, w3⟩
      have hd3 : dbPart w3 = dbPart w2 := by
        have := dbPart_execCmds (m.adapter.getMigrationCommands (scriptFor g t)) w2 []
        rw [hex] at this
        exact this
      have hd3f := dbPart_fields hd3
      cases exOut with
      | crash s =>
        exact absurd hex (by
          rcases execCmds_shape (m.adapter.getMigrationCommands (scriptFor g t)) w2 [] with ⟨evs, h⟩ | ⟨k, h⟩ <;>
            (rw [hex] at h; simp at h))
      | err er =>
        right
        simp only [Migrator.applyMigration, if_neg hs, hb, hex]
        simp [hd3f.2.2, hd3f.2.1, hd3f.1, hd2f.1, hd2f.2.1, hd2f.2.2]
      | ok txEvents =>
        have htx : txEvents = (m.adapter.getMigrationCommands (scriptFor g t)).map Event.exec :=
          by simpa using execCmds_ok_events _ w2 [] txEvents w3 hex
        rcases hbk : popResp w3 with ⟨r2, w4⟩
        have hd4 : dbPart w4 = dbPart w3 := by
          have := dbPart_popResp w3; rw [hbk] at this; exact this
        have hd4f := dbPart_fields hd4
        cases r2 with
        | fail e =>
          rcases hrb : rollbackTx (logMsg w4 .printf "Error logging migration") e with ⟨er, w5⟩
          have hd5 : dbPart w5 = dbPart w4 := by
            have := dbPart_rollbackTx (logMsg w4 .printf "Error logging migration") e
            rw [hrb] at this
            simpa [dbPart_logMsg] using this
          have hd5f := dbPart_fields hd5
          right
          simp only [Migrator.applyMigration, if_neg hs, hb, hex, hbk, hrb]
          simp [hd5f.2.2, hd5f.2.1, hd5f.1, hd4f.2.2, hd4f.2.1, hd4f.1,
              hd3f.2.2, hd3f.2.1, hd3f.1, hd2f.1, hd2f.2.1, hd2f.2.2]
        | okNil =>
          rcases hcm : popResp w4 with ⟨r3, w5⟩
          have hd5 : dbPart w5 = dbPart w4 := by
            have := dbPart_popResp w4; rw [hcm] at this; exact this
          have hd5f := dbPart_fields hd5
          cases r3 with
          | fail e =>
            right
            simp only [Migrator.applyMigration, if_neg hs, hb, hex, hbk, hcm]
            simp [logMsg, hd5f.2.2, hd5f.2.1, hd5f.1, hd4f.2.2, hd4f.2.1, hd4f.1,
                hd3f.2.2, hd3f.2.1, hd3f.1, hd2f.1, hd2f.2.1, hd2f.2.2]
          | okNil =>
            left
            simp only [Migrator.applyMigration, if_neg hs, hb, hex, hbk, hcm]
            simp [txBlock, htx, hd5f.2.2, hd5f.2.1, hd5f.1, hd4f.2.2, hd4f.2.1, hd4f.1,
                hd3f.2.2, hd3f.2.1, hd3f.1, hd2f.1, hd2f.2.1, hd2f.2.2]
          | okRes =>
            left
            simp only [Migrator.applyMigration, if_neg hs, hb, hex, hbk, hcm]
            simp [txBlock, htx, hd5f.2.2, hd5f.2.1, hd5f.1, hd4f.2.2, hd4f.2.1, hd4f.1,
                hd3f.2.2, hd3f.2.1, hd3f.1, hd2f.1, hd2f.2.1, hd2f.2.2]
        | okRes =>
          rcases hcm : popResp w4 with ⟨r3, w5⟩
          have hd5 : dbPart w5 = dbPart w4 := by
            have := dbPart_popResp w4; rw [hcm] at this; exact this
          have hd5f := dbPart_fields hd5
          cases r3 with
          | fail e =>
            right
            simp only [Migrator.applyMigration, if_neg hs, hb, hex, hbk, hcm]
            simp [logMsg, hd5f.2.2, hd5f.2.1, hd5f.1, hd4f.2.2, hd4f.2.1, hd4f.1,
                hd3f.2.2, hd3f.2.1, hd3f.1, hd2f.1, hd2f.2.1, hd2f.2.2]
          | okNil =>
            left
            simp only [Migrator.applyMigration, if_neg hs, hb, hex, hbk, hcm]
            simp [txBlock, htx, hd5f.2.2, hd5f.2.1, hd5f.1, hd4f.2.2, hd4f.2.1, hd4f.1,
                hd3f.2.2, hd3f.2.1, hd3f.1, hd2f.1, hd2f.2.1, hd2f.2.2]
          | okRes =>
            left
            simp only [Migrator.applyMigration, if_neg hs, hb, hex, hbk, hcm]
            simp [txBlock, htx, hd5f.2.2, hd5f.2.1, hd5f.1, hd4f.2.2, hd4f.2.1, hd4f.1,
                hd3f.2.2, hd3f.2.1, hd3f.1, hd2f.1, hd2f.2.1, hd2f.2.2]
    | okNil =>
      rcases hex : execCmds w2 [] (m.adapter.getMigrationCommands (scriptFor g t)) with ⟨exOut, w3⟩
      have hd3 : dbPart w3 = dbPart w2 := by
        have := dbPart_execCmds (m.adapter.getMigrationCommands (scriptFor g t)) w2 []
        rw [hex] at this
        exact this
      have hd3f := dbPart_fields hd3
      cases exOut with
      | crash s =>
        exact absurd hex (by
          rcases execCmds_shape (m.adapter.getMigrationCommands (scriptFor g t)) w2 [] with ⟨evs, h⟩ | ⟨k, h⟩ <;>
            (rw [hex] at h; simp at h))
      | err er =>
        right
        simp only [Migrator.applyMigration, if_neg hs, hb, hex]
        simp [hd3f.2.2, hd3f.2.1, hd3f.1, hd2f.1, hd2f.2.1, hd2f.2.2]
      | ok txEvents =>
        have htx : txEvents = (m.adapter.getMigrationCommands (scriptFor g t)).map Event.exec :=
          by simpa using execCmds_ok_events _ w2 [] txEvents w3 hex
        rcases hbk : popResp w3 with ⟨r2, w4⟩
        have hd4 : dbPart w4 = dbPart w3 := by
          have := dbPart_popResp w3; rw [hbk] at this; exact this
        have hd4f := dbPart_fields hd4
        cases r2 with
        | fail e =>
          rcases hrb : rollbackTx (logMsg w4 .printf "Error logging migration") e with ⟨er, w5⟩
          have hd5 : dbPart w5 = dbPart w4 := by
            have := dbPart_rollbackTx (logMsg w4 .printf "Error logging migration") e
            rw [hrb] at this
            simpa [dbPart_logMsg] using this
          have hd5f := dbPart_fields hd5
          right
          simp only [Migrator.applyMigration, if_neg hs, hb, hex, hbk, hrb]
          simp [hd5f.2.2, hd5f.2.1, hd5f.1, hd4f.2.2, hd4f.2.1, hd4f.1,
              hd3f.2.2, hd3f.2.1, hd3f.1, hd2f.1, hd2f.2.1, hd2f.2.2]
        | okNil =>
          rcases hcm : popResp w4 with ⟨r3, w5⟩
          have hd5 : dbPart w5 = dbPart w4 := by
            have := dbPart_popResp w4; rw [hcm] at this; exact this
          have hd5f := dbPart_fields hd5
          cases r3 with
          | fail e =>
            right
            simp only [Migrator.applyMigration, if_neg hs, hb, hex, hbk, hcm]
            simp [logMsg, hd5f.2.2, hd5f.2.1, hd5f.1, hd4f.2.2, hd4f.2.1, hd4f.1,
                hd3f.2.2, hd3f.2.1, hd3f.1, hd2f.1, hd2f.2.1, hd2f.2.2]
          | okNil =>
            left
            simp only [Migrator.applyMigration, if_neg hs, hb, hex, hbk, hcm]
            simp [txBlock, htx, hd5f.2.2, hd5f.2.1, hd5f.1, hd4f.2.2, hd4f.2.1, hd4f.1,
                hd3f.2.2, hd3f.2.1, hd3f.1, hd2f.1, hd2f.2.1, hd2f.2.2]
          | okRes =>
            left
            simp only [Migrator.applyMigration, if_neg hs, hb, hex, hbk, hcm]
            simp [txBlock, htx, hd5f.2.2, hd5f.2.1, hd5f.1, hd4f.2.2, hd4f.2.1, hd4f.1,
                hd3f.2.2, hd3f.2.1, hd3f.1, hd2f.1, hd2f.2.1, hd2f.2.2]
        | okRes =>
          rcases hcm : popResp w4 with ⟨r3, w5⟩
          have hd5 : dbPart w5 = dbPart w4 := by
            have := dbPart_popResp w4; rw [hcm] at this; exact this
          have hd5f := dbPart_fields hd5
          cases r3 with
          | fail e =>
            right
            simp only [Migrator.applyMigration, if_neg hs, hb, hex, hbk, hcm]
            simp [logMsg, hd5f.2.2, hd5f.2.1, hd5f.1, hd4f.2.2, hd4f.2.1, hd4f.1,
                hd3f.2.2, hd3f.2.1, hd3f.1, hd2f.1, hd2f.2.1, hd2f.2.2]
          | okNil =>
            left
            simp only [Migrator.applyMigration, if_neg hs, hb, hex, hbk, hcm]
            simp [txBlock, htx, hd5f.2.2, hd5f.2.1, hd5f.1, hd4f.2.2, hd4f.2.1, hd4f.1,
                hd3f.2.2, hd3f.2.1, hd3f.1, hd2f.1, hd2f.2.1, hd2f.2.2]
          | okRes =>
            left
            simp only [Migrator.applyMigration, if_neg hs, hb, hex, hbk, hcm]
            simp [txBlock, htx, hd5f.2.2, hd5f.2.1, hd5f.1, hd4f.2.2, hd4f.2.1, hd4f.1,
                hd3f.2.2, hd3f.2.1, hd3f.1, hd2f.1, hd2f.2.1, hd2f.2.2]

/-- After a non-empty script is selected, `ApplyMigration` always calls
`Begin` (the transaction counter increases), and any error it returns is
a database error, never the invalid-migration-type error. -/
lemma applyMigration_after_begin (m : Migrator) (g : Migration) (t : MigrationType) (w : World)
    (hs : scriptFor g t ≠ "") :
    (m.applyMigration g t w).1 ≠ .err .invalidMigrationType ∧
    (m.applyMigration g t w).2.2.began = w.began + 1 := by
  have hdB : dbPart { logMsg w .printf "Applying migration" with
      began := (logMsg w .printf "Applying migration").began + 1 }
      = (w.tableExists, w.applied, w.events, w.began + 1) := by
    simp [logMsg, dbPart]
  rcases hb : popResp { logMsg w .printf "Applying migration" with
      began := (logMsg w .printf "Applying migration").began + 1 } with ⟨r, w2⟩
  have hd2 : dbPart w2 = (w.tableExists, w.applied, w.events, w.began + 1) := by
    have := dbPart_popResp { logMsg w .printf "Applying migration" with
      began := (logMsg w .printf "Applying migration").began + 1 }
    rw [hb] at this
    exact this.trans hdB
  have hbeg2 : w2.began = w.began + 1 := by
    simp [dbPart, Prod.ext_iff] at hd2
    exact hd2.2.2.2
  cases r with
  | fail e =>
    simp only [Migrator.applyMigration, if_neg hs, hb]
    simp [logMsg, hbeg2]
  | okNil =>
    rcases hex : execCmds w2 [] (m.adapter.getMigrationCommands (scriptFor g t)) with ⟨exOut, w3⟩
    have hbeg3 : w3.began = w.began + 1 := by
      have := dbPart_execCmds (m.adapter.getMigrationCommands (scriptFor g t)) w2 []
      rw [hex] at this
      exact (dbPart_fields this).2.2.2.trans hbeg2
    cases exOut with
    | crash s =>
      exact absurd hex (by
        rcases execCmds_shape (m.adapter.getMigrationCommands (scriptFor g t)) w2 [] with ⟨evs, h⟩ | ⟨k, h⟩ <;>
          (rw [hex] at h; simp at h))
    | err er =>
      have her : ∃ k, er = .dbErr k := by
        rcases execCmds_shape (m.adapter.getMigrationCommands (scriptFor g t)) w2 [] with ⟨evs, h⟩ | ⟨k, h⟩ <;>
          rw [hex] at h <;> simp at h
        exact ⟨_, h⟩
      obtain ⟨k, rfl⟩ := her
      simp only [Migrator.applyMigration, if_neg hs, hb, hex]
      simp [hbeg3]
    | ok txEvents =>
      rcases hbk : popResp w3 with ⟨r2, w4⟩
      have hbeg4 : w4.began = w.began + 1 := by
        have := dbPart_popResp w3
        rw [hbk] at this
        exact (dbPart_fields this).2.2.2.trans hbeg3
      cases r2 with
      | fail e =>
        rcases hrb : rollbackTx (logMsg w4 .printf "Error logging migration") e with ⟨er, w5⟩
        have her : ∃ k, er = .dbErr k := by
          obtain ⟨k, hk⟩ := rollbackTx_err (logMsg w4 .printf "Error logging migration") e
          rw [hrb] at hk
          exact ⟨k, by simpa using hk⟩
        have hbeg5 : w5.began = w.began + 1 := by
          have := dbPart_rollbackTx (logMsg w4 .printf "Error logging migration") e
          rw [hrb] at this
          simp only [dbPart_logMsg] at this
          exact (dbPart_fields this).2.2.2.trans hbeg4
        obtain ⟨k, rfl⟩ := her
        simp only [Migrator.applyMigration, if_neg hs, hb, hex, hbk, hrb]
        simp [hbeg5]
      | okNil =>
        rcases hcm : popResp w4 with ⟨r3, w5⟩
        have hbeg5 : w5.began = w.began + 1 := by
          have := dbPart_popResp w4
          rw [hcm] at this
          exact (dbPart_fields this).2.2.2.trans hbeg4
        cases r3 with
        | fail e =>
          simp only [Migrator.applyMigration, if_neg hs, hb, hex, hbk, hcm]
          simp [logMsg, hbeg5]
        | okNil =>
          simp only [Migrator.applyMigration, if_neg hs, hb, hex, hbk, hcm]
          simp [hbeg5]
        | okRes =>
          simp only [Migrator.applyMigration, if_neg hs, hb, hex, hbk, hcm]
          simp [hbeg5]
      | okRes =>
        rcases hcm : popResp w4 with ⟨r3, w5⟩
        have hbeg5 : w5.began = w.began + 1 := by
          have := dbPart_popResp w4
          rw [hcm] at this
          exact (dbPart_fields this).2.2.2.trans hbeg4
        cases r3 with
        | fail e =>
          simp only [Migrator.applyMigration, if_neg hs, hb, hex, hbk, hcm]
          simp [logMsg, hbeg5]
        | okNil =>
          simp only [Migrator.applyMigration, if_neg hs, hb, hex, hbk, hcm]
          simp [hbeg5]
        | okRes =>
          simp only [Migrator.applyMigration, if_neg hs, hb, hex, hbk, hcm]
          simp [hbeg5]
  | okRes =>
    rcases hex : execCmds w2 [] (m.adapter.getMigrationCommands (scriptFor g t)) with ⟨exOut, w3⟩
    have hbeg3 : w3.began = w.began + 1 := by
      have := dbPart_execCmds (m.adapter.getMigrationCommands (scriptFor g t)) w2 []
      rw [hex] at this
      exact (dbPart_fields this).2.2.2.trans hbeg2
    cases exOut with
    | crash s =>
      exact absurd hex (by
        rcases execCmds_shape (m.adapter.getMigrationCommands (scriptFor g t)) w2 [] with ⟨evs, h⟩ | ⟨k, h⟩ <;>
          (rw [hex] at h; simp at h))
    | err er =>
      have her : ∃ k, er = .dbErr k := by
        rcases execCmds_shape (m.adapter.getMigrationCommands (scriptFor g t)) w2 [] with ⟨evs, h⟩ | ⟨k, h⟩ <;>
          rw [hex] at h <;> simp at h
        exact ⟨_, h⟩
      obtain ⟨k, rfl⟩ := her
      simp only [Migrator.applyMigration, if_neg hs, hb, hex]
      simp [hbeg3]
    | ok txEvents =>
      rcases hbk : popResp w3 with ⟨r2, w4⟩
      have hbeg4 : w4.began = w.began + 1 := by
        have := dbPart_popResp w3
        rw [hbk] at this
        exact (dbPart_fields this).2.2.2.trans hbeg3
      cases r2 with
      | fail e =>
        rcases hrb : rollbackTx (logMsg w4 .printf "Error logging migration") e with ⟨er, w5⟩
        have her : ∃ k, er = .dbErr k := by
          obtain ⟨k, hk⟩ := rollbackTx_err (logMsg w4 .printf "Error logging migration") e
          rw [hrb] at hk
          exact ⟨k, by simpa using hk⟩
        have hbeg5 : w5.began = w.began + 1 := by
          have := dbPart_rollbackTx (logMsg w4 .printf "Error logging migration") e
          rw [hrb] at this
          simp only [dbPart_logMsg] at this
          exact (dbPart_fields this).2.2.2.trans hbeg4
        obtain ⟨k, rfl⟩ := her
        simp only [Migrator.applyMigration, if_neg hs, hb, hex, hbk, hrb]
        simp [hbeg5]
      | okNil =>
        rcases hcm : popResp w4 with ⟨r3, w5⟩
        have hbeg5 : w5.began = w.began + 1 := by
          have := dbPart_popResp w4
          rw [hcm] at this
          exact (dbPart_fields this).2.2.2.trans hbeg4
        cases r3 with
        | fail e =>
          simp only [Migrator.applyMigration, if_neg hs, hb, hex, hbk, hcm]
          simp [logMsg, hbeg5]
        | okNil =>
          simp only [Migrator.applyMigration, if_neg hs, hb, hex, hbk, hcm]
          simp [hbeg5]
        | okRes =>
          simp only [Migrator.applyMigration, if_neg hs, hb, hex, hbk, hcm]
          simp [hbeg5]
      | okRes =>
        rcases hcm : popResp w4 with ⟨r3, w5⟩
        have hbeg5 : w5.began = w.began + 1 := by
          have := dbPart_popResp w4
          rw [hcm] at this
          exact (dbPart_fields this).2.2.2.trans hbeg4
        cases r3 with
        | fail e =>
          simp only [Migrator.applyMigration, if_neg hs, hb, hex, hbk, hcm]
          simp [logMsg, hbeg5]
        | okNil =>
          simp only [Migrator.applyMigration, if_neg hs, hb, hex, hbk, hcm]
          simp [hbeg5]
        | okRes =>
          simp only [Migrator.applyMigration, if_neg hs, hb, hex, hbk, hcm]
          simp [hbeg5]

/-- C7: `ApplyMigration` returns the invalid-migration-type error —
without consuming any database response, opening a transaction,
executing anything, or touching the migrator — exactly when the
requested direction's script is the empty string; with a non-empty
script it never returns that error and always proceeds to open a
transaction (the transaction counter increases by one). -/
theorem c7_invalid_type_iff_empty_script (m : Migrator) (g : Migration) (t : MigrationType)
    (w : World) :
    (scriptFor g t = "" →
      m.applyMigration g t w
        = (.err .invalidMigrationType, m, logMsg w .printf "Applying migration")) ∧
    (scriptFor g t ≠ "" →
      (m.applyMigration g t w).1 ≠ .err .invalidMigrationType ∧
      (m.applyMigration g t w).2.2.began = w.began + 1) := by
  constructor
  · intro hs
    simp [Migrator.applyMigration, hs]
  · intro hs
    exact applyMigration_after_begin m g t w hs

/-- A migration with an empty up script, and one with both scripts. -/
def gNoUp : Migration :=
  { ID := 3, Name := "noup", Status := 0, Up := "", Down := "drop", Source := "" }

/-- A migration with both direction scripts present. -/
def gBoth : Migration :=
  { ID := 1, Name := "both", Status := 0, Up := "create", Down := "drop", Source := "" }

/-- A one-migration migrator over the default-splitting adapter. -/
def mOne : Migrator := { migrations := [gBoth], adapter := .postgres }

/-- A quiet world: empty response stream (every operation succeeds),
existing metadata table, no applied migrations. -/
def wQuiet : World :=
  { resps := [], tableExists := true, applied := [], events := [], logs := [], began := 0 }

theorem c7_invalid_type_iff_empty_script_witness :
    mOne.applyMigration gNoUp .up wQuiet
      = (.err .invalidMigrationType, mOne, logMsg wQuiet .printf "Applying migration") ∧
    ((mOne.applyMigration gBoth .up wQuiet).1 ≠ .err .invalidMigrationType ∧
      (mOne.applyMigration gBoth .up wQuiet).2.2.began = wQuiet.began + 1) :=
  ⟨(c7_invalid_type_iff_empty_script mOne gNoUp .up wQuiet).1 rfl,
   (c7_invalid_type_iff_empty_script mOne gBoth .up wQuiet).2 (by decide)⟩

/-- A world whose next (and only) response is a failure. -/
def wFail7 : World :=
  { resps := [.fail 7], tableExists := false, applied := [], events := [], logs := [], began := 0 }

/-- C2 counterexample: when the metadata-table creation statement fails,
`CreateMigrationsTable` does log at fatal level, but it returns `nil`
(the `Outcome.ok` value), not the failure: the claim that the failure
"is returned as a non-nil error value to its caller" is false — the
function's only non-`Fatalf` exit is `return nil` (src/gomigrate.go
lines 64–73). -/
theorem c2_counterexample :
    (mOne.createMigrationsTable wFail7).1 = .ok () ∧
    (LogLevel.fatalf, "Error creating migrations table") ∈ (mOne.createMigrationsTable wFail7).2.logs := by
  decide

/-- C2 amended: for every failure of the creation statement,
`CreateMigrationsTable` issues a fatal-level log call, but surfaces no
error: it returns `nil` (with the default `log.Fatalf` logger the
process would exit inside the call; with any non-exiting logger the
caller observes a `nil` error), and the metadata table is not created. -/
theorem c2_create_table_failure_fatal_logged_but_nil_returned
    (m : Migrator) (w : World) (e : Nat) (rest : List Resp)
    (h : w.resps = Resp.fail e :: rest) :
    (m.createMigrationsTable w).1 = .ok () ∧
    (m.createMigrationsTable w).2.logs
      = w.logs ++ [(LogLevel.fatalf, "Error creating migrations table"),
                   (LogLevel.printf, "Created migrations table")] ∧
    (m.createMigrationsTable w).2.tableExists = w.tableExists ∧
    (m.createMigrationsTable w).2.events = w.events := by
  simp [Migrator.createMigrationsTable, popResp, h, logMsg]

theorem c2_create_table_failure_witness :
    (mOne.createMigrationsTable wFail7).1 = .ok () ∧
    (mOne.createMigrationsTable wFail7).2.logs
      = wFail7.logs ++ [(LogLevel.fatalf, "Error creating migrations table"),
                        (LogLevel.printf, "Created migrations table")] ∧
    (mOne.createMigrationsTable wFail7).2.tableExists = wFail7.tableExists ∧
    (mOne.createMigrationsTable wFail7).2.events = wFail7.events :=
  c2_create_table_failure_fatal_logged_but_nil_returned mOne wFail7 7 [] rfl

/-- Stepping lemma: a prefix of `j` success responses lets the statement
loop execute the first `j` commands and continue on the rest. -/
lemma execCmds_okPrefix : ∀ (j : Nat) (cmds : List String) (w : World) (acc : List Event)
    (rest : List Resp), j ≤ cmds.length →
    w.resps = List.replicate j Resp.okNil ++ rest →
    execCmds w acc cmds
      = execCmds { w with resps := rest } (acc ++ (cmds.take j).map Event.exec) (cmds.drop j) := by
  intro j
  induction j with
  | zero =>
    intro cmds w acc rest _ h
    obtain ⟨resps, te, ap, ev, lg, bg⟩ := w
    simp at h
    subst h
    simp
  | succ j ih =>
    intro cmds w acc rest hj h
    cases cmds with
    | nil => simp at hj
    | cons c cs =>
      have hpop : popResp w = (Resp.okNil, { w with resps := List.replicate j Resp.okNil ++ rest }) := by
        simp [popResp, h, List.replicate_succ]
      have hj' : j ≤ cs.length := by simpa using hj
      calc execCmds w acc (c :: cs)
          = execCmds { w with resps := List.replicate j Resp.okNil ++ rest }
              (acc ++ [.exec c]) cs := by
            simp only [execCmds, hpop]
        _ = execCmds { w with resps := rest }
              ((acc ++ [.exec c]) ++ (cs.take j).map Event.exec) (cs.drop j) :=
            ih cs _ (acc ++ [.exec c]) rest hj' rfl
        _ = execCmds { w with resps := rest }
              (acc ++ ((c :: cs).take (j + 1)).map Event.exec) ((c :: cs).drop (j + 1)) := by
            simp

/-- With enough success responses the whole statement loop succeeds,
returning the executed commands in order. -/
lemma execCmds_all_ok (cmds : List String) (w : World) (acc : List Event) (rest : List Resp)
    (hw : w.resps = List.replicate cmds.length Resp.okNil ++ rest) :
    execCmds w acc cmds = (.ok (acc ++ cmds.map Event.exec), { w with resps := rest }) := by
  rw [execCmds_okPrefix cmds.length cmds w acc rest le_rfl hw]
  simp [execCmds]

/-- A failure at the execution of command `j` (all earlier commands
succeeding) aborts the loop through a rollback; a rollback failure is
reported in place of the execution error. -/
lemma execCmds_fail_at (cmds : List String) (j : Nat) (hj : j < cmds.length) (w : World)
    (acc : List Event) (e : Nat) (rb : Resp) (rest : List Resp)
    (hw : w.resps = List.replicate j Resp.okNil ++ (Resp.fail e :: rb :: rest)) :
    (execCmds w acc cmds).1
      = .err (match rb with | .fail re => .dbErr re | _ => .dbErr e) := by
  rw [execCmds_okPrefix j cmds w acc _ (Nat.le_of_lt hj) hw]
  rw [List.drop_eq_getElem_cons hj]
  cases rb <;> simp [execCmds, popResp, rollbackTx, logMsg]

/-- C4: failure semantics of `ApplyMigration` after its transaction is
opened.  With the script of the requested direction non-empty, for any
response stream: a failure executing the `j`-th statement (earlier ones
succeeding) rolls the transaction back and returns that failure, unless
the rollback itself fails, in which case the rollback failure is
returned instead; the same precedence applies to a failure writing the
bookkeeping row (the response right after the statements); a commit
failure is returned as-is; and on every failure outcome the migrator —
in particular the migration's in-memory status — and the committed
database state are unchanged, the status being set only on the success
outcome, i.e. after a successful commit. -/
theorem c4_apply_failure_semantics (m : Migrator) (g : Migration) (t : MigrationType) (w : World)
    (hs : scriptFor g t ≠ "") :
    (∀ j e rest, j < (m.adapter.getMigrationCommands (scriptFor g t)).length →
      w.resps = Resp.okNil ::
        (List.replicate j Resp.okNil ++ (Resp.fail e :: Resp.okNil :: rest)) →
      (m.applyMigration g t w).1 = .err (.dbErr e)) ∧
    (∀ j e re rest, j < (m.adapter.getMigrationCommands (scriptFor g t)).length →
      w.resps = Resp.okNil ::
        (List.replicate j Resp.okNil ++ (Resp.fail e :: Resp.fail re :: rest)) →
      (m.applyMigration g t w).1 = .err (.dbErr re)) ∧
    (∀ e rest, w.resps = Resp.okNil ::
        (List.replicate (m.adapter.getMigrationCommands (scriptFor g t)).length Resp.okNil
          ++ (Resp.fail e :: Resp.okNil :: rest)) →
      (m.applyMigration g t w).1 = .err (.dbErr e)) ∧
    (∀ e re rest, w.resps = Resp.okNil ::
        (List.replicate (m.adapter.getMigrationCommands (scriptFor g t)).length Resp.okNil
          ++ (Resp.fail e :: Resp.fail re :: rest)) →
      (m.applyMigration g t w).1 = .err (.dbErr re)) ∧
    (∀ e rest, w.resps = Resp.okNil ::
        (List.replicate (m.adapter.getMigrationCommands (scriptFor g t)).length Resp.okNil
          ++ (Resp.okNil :: Resp.fail e :: rest)) →
      (m.applyMigration g t w).1 = .err (.dbErr e)) ∧
    ((m.applyMigration g t w).1 ≠ .ok () →
      (m.applyMigration g t w).2.1 = m ∧
      (m.applyMigration g t w).2.2.events = w.events ∧
      (m.applyMigration g t w).2.2.applied = w.applied) ∧
    ((m.applyMigration g t w).1 = .ok () →
      (m.applyMigration g t w).2.1 = setStatus m g.ID (statusAfter t)) := by
  refine ⟨?_, ?_, ?_, ?_, ?_, ?_, ?_⟩
  · intro j e rest hj hw
    rcases hb : popResp { logMsg w .printf "Applying migration" with
        began := (logMsg w .printf "Applying migration").began + 1 } with ⟨r, w2⟩
    have hb2 := hb
    simp [popResp, logMsg, hw] at hb2
    obtain ⟨hr, hw2⟩ := hb2
    subst hr
    rcases hex : execCmds w2 [] (m.adapter.getMigrationCommands (scriptFor g t)) with ⟨exOut, w3⟩
    have hfail := execCmds_fail_at (m.adapter.getMigrationCommands (scriptFor g t)) j hj
        w2 [] e .okNil rest (by rw [← hw2])
    rw [hex] at hfail
    simp at hfail
    subst hfail
    simp only [Migrator.applyMigration, if_neg hs, hb, hex]
  · intro j e re rest hj hw
    rcases hb : popResp { logMsg w .printf "Applying migration" with
        began := (logMsg w .printf "Applying migration").began + 1 } with ⟨r, w2⟩
    have hb2 := hb
    simp [popResp, logMsg, hw] at hb2
    obtain ⟨hr, hw2⟩ := hb2
    subst hr
    rcases hex : execCmds w2 [] (m.adapter.getMigrationCommands (scriptFor g t)) with ⟨exOut, w3⟩
    have hfail := execCmds_fail_at (m.adapter.getMigrationCommands (scriptFor g t)) j hj
        w2 [] e (.fail re) rest (by rw [← hw2])
    rw [hex] at hfail
    simp at hfail
    subst hfail
    simp only [Migrator.applyMigration, if_neg hs, hb, hex]
  · intro e rest hw
    rcases hb : popResp { logMsg w .printf "Applying migration" with
        began := (logMsg w .printf "Applying migration").began + 1 } with ⟨r, w2⟩
    have hb2 := hb
    simp [popResp, logMsg, hw] at hb2
    obtain ⟨hr, hw2⟩ := hb2
    subst hr
    have hex := execCmds_all_ok (m.adapter.getMigrationCommands (scriptFor g t)) w2 []
        (Resp.fail e :: Resp.okNil :: rest) (by rw [← hw2])
    simp only [Migrator.applyMigration, if_neg hs, hb, hex]
    simp [popResp, rollbackTx, logMsg]
  · intro e re rest hw
    rcases hb : popResp { logMsg w .printf "Applying migration" with
        began := (logMsg w .printf "Applying migration").began + 1 } with ⟨r, w2⟩
    have hb2 := hb
    simp [popResp, logMsg, hw] at hb2
    obtain ⟨hr, hw2⟩ := hb2
    subst hr
    have hex := execCmds_all_ok (m.adapter.getMigrationCommands (scriptFor g t)) w2 []
        (Resp.fail e :: Resp.fail re :: rest) (by rw [← hw2])
    simp only [Migrator.applyMigration, if_neg hs, hb, hex]
    simp [popResp, rollbackTx, logMsg]
  · intro e rest hw
    rcases hb : popResp { logMsg w .printf "Applying migration" with
        began := (logMsg w .printf "Applying migration").began + 1 } with ⟨r, w2⟩
    have hb2 := hb
    simp [popResp, logMsg, hw] at hb2
    obtain ⟨hr, hw2⟩ := hb2
    subst hr
    have hex := execCmds_all_ok (m.adapter.getMigrationCommands (scriptFor g t)) w2 []
        (Resp.okNil :: Resp.fail e :: rest) (by rw [← hw2])
    simp only [Migrator.applyMigration, if_neg hs, hb, hex]
    simp [popResp, rollbackTx, logMsg]
  · intro hne
    rcases applyMigration_cases m g t w with ⟨hok, _⟩ | ⟨_, hm, hev, hap, _⟩
    · exact absurd hok hne
    · exact ⟨hm, hev, hap⟩
  · intro hok
    rcases applyMigration_cases m g t w with ⟨_, hm, _⟩ | ⟨⟨e, he⟩, _⟩
    · exact hm
    · rw [hok] at he; exact absurd he (by simp)

/-- Response stream exercising the execution-failure-with-clean-rollback
path for a single-statement migration. -/
def wC4 : World :=
  { resps := [.okNil, .fail 3, .okNil], tableExists := true, applied := [],
    events := [], logs := [], began := 0 }

theorem c4_apply_failure_semantics_witness :
    (mOne.applyMigration gBoth .up wC4).1 = .err (.dbErr 3) :=
  (c4_apply_failure_semantics mOne gBoth .up wC4 (by decide)).1 0 3 [] (by decide) rfl

lemma popResp_nil (w : World) (h : w.resps = []) : popResp w = (Resp.okNil, w) := by
  simp [popResp, h]

lemma execCmds_nil_resps : ∀ (cmds : List String) (w : World) (acc : List Event),
    w.resps = [] → execCmds w acc cmds = (.ok (acc ++ cmds.map Event.exec), w) := by
  intro cmds
  induction cmds with
  | nil => intro w acc _; simp [execCmds]
  | cons cmd rest ih =>
    intro w acc h
    simp only [execCmds, popResp_nil w h]
    rw [ih w (acc ++ [Event.exec cmd]) h]
    simp

/-- With an exhausted (all-success) response stream and a non-empty
script, `ApplyMigration` succeeds and its effects are exactly: status
set, transaction block committed, applied set updated, one log line,
one transaction opened. -/
lemma applyMigration_nil_resps (m : Migrator) (g : Migration) (t : MigrationType) (w : World)
    (hs : scriptFor g t ≠ "") (h : w.resps = []) :
    m.applyMigration g t w
      = (.ok (), setStatus m g.ID (statusAfter t),
         { w with logs := w.logs ++ [(LogLevel.printf, "Applying migration")],
                  began := w.began + 1,
                  events := w.events ++ txBlock m.adapter g t,
                  applied := appliedAfter t g.ID w.applied }) := by
  obtain ⟨resps0, te, ap, ev, lg, bg⟩ := w
  simp only at h
  subst h
  simp only [Migrator.applyMigration, if_neg hs, logMsg, popResp]
  rw [execCmds_nil_resps (m.adapter.getMigrationCommands (scriptFor g t)) _ [] rfl]
  simp [txBlock]

lemma getMigrationStatusesAux_nil : ∀ (migs : List Migration) (w : World), w.resps = [] →
    getMigrationStatusesAux w migs = (.ok (), syncStatuses migs w.applied, w) := by
  intro migs
  induction migs with
  | nil => intro w _; simp [getMigrationStatusesAux, syncStatuses]
  | cons g gs ih =>
    intro w h
    simp only [getMigrationStatusesAux, popResp_nil w h]
    rw [ih w h]
    simp [syncStatuses]

lemma getMigrationStatuses_nil (m : Migrator) (w : World) (h : w.resps = []) :
    m.getMigrationStatuses w
      = (.ok (), { m with migrations := syncStatuses m.migrations w.applied }, w) := by
  simp only [Migrator.getMigrationStatuses, getMigrationStatusesAux_nil m.migrations w h]

lemma getMigrationStatusesAux_okPrefix : ∀ (migs : List Migration) (w : World) (rest : List Resp),
    w.resps = List.replicate migs.length Resp.okNil ++ rest →
    getMigrationStatusesAux w migs
      = (.ok (), syncStatuses migs w.applied, { w with resps := rest }) := by
  intro migs
  induction migs with
  | nil =>
    intro w rest h
    obtain ⟨resps0, te, ap, ev, lg, bg⟩ := w
    simp only at h
    simp [getMigrationStatusesAux, syncStatuses, h]
  | cons g gs ih =>
    intro w rest h
    have hpop : popResp w = (Resp.okNil, { w with resps := List.replicate gs.length Resp.okNil ++ rest }) := by
      simp [popResp, h, List.replicate_succ]
    simp only [getMigrationStatusesAux, hpop]
    rw [ih { w with resps := List.replicate gs.length Resp.okNil ++ rest } rest rfl]
    simp [syncStatuses]

lemma getMigrationStatuses_okPrefix (m : Migrator) (w : World) (rest : List Resp)
    (h : w.resps = List.replicate m.migrations.length Resp.okNil ++ rest) :
    m.getMigrationStatuses w
      = (.ok (), { m with migrations := syncStatuses m.migrations w.applied },
         { w with resps := rest }) := by
  simp only [Migrator.getMigrationStatuses, getMigrationStatusesAux_okPrefix m.migrations w rest h]

lemma setStatus_adapter (m : Migrator) (i : Nat) (s : Int) :
    (setStatus m i s).adapter = m.adapter := rfl

lemma setStatus_id_status (m : Migrator) (i : Nat) (s : Int) :
    ∀ g2 ∈ (setStatus m i s).migrations, g2.ID = i → g2.Status = s := by
  intro g2 hg2 hid
  simp only [setStatus, List.mem_map] at hg2
  obtain ⟨g0, _, rfl⟩ := hg2
  by_cases h : g0.ID = i
  · simp [h]
  · simp [h] at hid ⊢

lemma setStatus_keep_id_status (m : Migrator) (i : Nat) (s : Int) (id : Nat)
    (h : ∀ g2 ∈ m.migrations, g2.ID = id → g2.Status = s) :
    ∀ g2 ∈ (setStatus m i s).migrations, g2.ID = id → g2.Status = s := by
  intro g2 hg2 hid
  simp only [setStatus, List.mem_map] at hg2
  obtain ⟨g0, hg0, rfl⟩ := hg2
  by_cases hcase : g0.ID = i
  · simp [hcase]
  · simp [hcase] at hid ⊢
    exact h g0 hg0 hid

lemma migrateLoop_keep_id_active : ∀ (gs : List Migration) (m : Migrator) (w : World) (id : Nat),
    (∀ g2 ∈ m.migrations, g2.ID = id → g2.Status = Active) →
    ∀ g2 ∈ (m.migrateLoop w gs).2.1.migrations, g2.ID = id → g2.Status = Active := by
  intro gs
  induction gs with
  | nil => intro m w id h; simpa [Migrator.migrateLoop] using h
  | cons g gs ih =>
    intro m w id h
    rcases ha : m.applyMigration g .up w with ⟨out, m1, w1⟩
    have hc := applyMigration_cases m g .up w
    rw [ha] at hc
    rcases hc with ⟨hout, hm1, _⟩ | ⟨⟨e, hout⟩, hm1, _⟩
    · simp only at hout hm1
      subst hout
      simp only [Migrator.migrateLoop, ha]
      subst hm1
      exact ih (setStatus m g.ID (statusAfter .up)) w1 id
        (setStatus_keep_id_status m g.ID (statusAfter .up) id h)
    · simp only at hout hm1
      subst hout
      simp only [Migrator.migrateLoop, ha]
      subst hm1
      exact h

/-- General dichotomy for the application loop of `Migrate`: there is a
prefix of the pending list that was fully applied — its transaction
blocks committed in list order, its statuses set to Active — the loop
succeeding exactly when the prefix is the whole list, and never
panicking. -/
lemma migrateLoop_spec : ∀ (gs : List Migration) (m : Migrator) (w : World),
    ∃ k, k ≤ gs.length ∧
      ((m.migrateLoop w gs).2.2.events
        = w.events ++ (gs.take k).flatMap (fun g => txBlock m.adapter g .up)) ∧
      (∀ g ∈ gs.take k, ∀ g2 ∈ (m.migrateLoop w gs).2.1.migrations,
        g2.ID = g.ID → g2.Status = Active) ∧
      ((m.migrateLoop w gs).1 = .ok () ↔ k = gs.length) ∧
      (∀ s, (m.migrateLoop w gs).1 ≠ .crash s) ∧
      (m.migrateLoop w gs).2.2.tableExists = w.tableExists ∧
      (m.migrateLoop w gs).2.1.adapter = m.adapter := by
  intro gs
  induction gs with
  | nil =>
    intro m w
    exact ⟨0, by simp [Migrator.migrateLoop]⟩
  | cons g gs ih =>
    intro m w
    rcases ha : m.applyMigration g .up w with ⟨out, m1, w1⟩
    have hc := applyMigration_cases m g .up w
    rw [ha] at hc
    rcases hc with ⟨hout, hm1, hev, _, hte⟩ | ⟨⟨e, hout⟩, hm1, hev, _, hte⟩
    · simp only at hout hm1 hev hte
      subst hout
      obtain ⟨k, hk, hev', hst', hiff', hcr', hte', had'⟩ := ih m1 w1
      refine ⟨k + 1, by simpa using Nat.succ_le_succ hk, ?_, ?_, ?_, ?_, ?_, ?_⟩ <;>
        simp only [Migrator.migrateLoop, ha]
      · rw [hev', hev, hm1]
        simp [setStatus_adapter, List.append_assoc]
      · intro g' hg' g2 hg2 hid
        simp only [List.take_succ_cons, List.mem_cons] at hg'
        rcases hg' with rfl | hg'
        · have hbase : ∀ g2 ∈ m1.migrations, g2.ID = g'.ID → g2.Status = Active := by
            rw [hm1]
            exact setStatus_id_status m g'.ID (statusAfter .up)
          exact migrateLoop_keep_id_active gs m1 w1 g'.ID hbase g2 hg2 hid
        · exact hst' g' hg' g2 hg2 hid
      · rw [hiff']
        simp [Nat.succ_inj]
      · exact hcr'
      · rw [hte', hte]
      · rw [had', hm1, setStatus_adapter]
    · simp only at hout hm1 hev hte
      subst hout
      refine ⟨0, by simp, ?_, by simp, ?_, ?_, ?_, ?_⟩ <;>
        simp only [Migrator.migrateLoop, ha]
      · simpa using hev
      · constructor
        · intro h; simp at h
        · intro h; simp at h
      · intro s h; simp at h
      · exact hte
      · rw [hm1]

instance : IsTotal Migration (fun a b => a.ID ≤ b.ID) :=
  ⟨fun a b => Nat.le_total a.ID b.ID⟩

instance : IsTrans Migration (fun a b => a.ID ≤ b.ID) :=
  ⟨fun _ _ _ hab hbc => Nat.le_trans hab hbc⟩

lemma mem_Migrations (m : Migrator) (s : Int) (g : Migration) :
    g ∈ m.Migrations s ↔ g ∈ m.migrations ∧ statusMatches s g := by
  unfold Migrator.Migrations
  rw [List.mem_filter,
    (List.perm_insertionSort (fun a b => a.ID ≤ b.ID) m.migrations).mem_iff]

/-- With pairwise-distinct ids (the invariant of the Go
`map[uint64]*Migration`), `Migrations` returns a strictly ascending
id sequence. -/
lemma Migrations_chain_lt (m : Migrator) (s : Int)
    (h : (m.migrations.map Migration.ID).Nodup) :
    List.Chain' (· < ·) ((m.Migrations s).map Migration.ID) := by
  have hsorted : List.Pairwise (fun a b : Migration => a.ID ≤ b.ID)
      (List.insertionSort (fun a b => a.ID ≤ b.ID) m.migrations) :=
    List.sorted_insertionSort _ _
  have hpend : List.Pairwise (fun a b : Migration => a.ID ≤ b.ID) (m.Migrations s) :=
    List.Pairwise.filter _ hsorted
  have hnodup_sorted : ((List.insertionSort (fun a b => a.ID ≤ b.ID) m.migrations).map
      Migration.ID).Nodup :=
    (((List.perm_insertionSort (fun a b => a.ID ≤ b.ID) m.migrations).map
      Migration.ID).nodup_iff).mpr h
  have hsub : List.Sublist ((m.Migrations s).map Migration.ID)
      ((List.insertionSort (fun a b => a.ID ≤ b.ID) m.migrations).map Migration.ID) :=
    (List.filter_sublist _).map _
  have hnodup_pend : ((m.Migrations s).map Migration.ID).Nodup :=
    hnodup_sorted.sublist hsub
  have hne : List.Pairwise (fun a b : Migration => a.ID ≠ b.ID) (m.Migrations s) :=
    List.pairwise_map.mp hnodup_pend
  have hlt : List.Pairwise (fun a b : Migration => a.ID < b.ID) (m.Migrations s) :=
    (hpend.and hne).imp (fun hab => Nat.lt_of_le_of_ne hab.1 hab.2)
  exact (List.pairwise_map.mpr hlt).chain'

lemma syncStatuses_map_id (migs : List Migration) (ap : List Nat) :
    (syncStatuses migs ap).map Migration.ID = migs.map Migration.ID := by
  unfold syncStatuses
  rw [List.map_map]
  apply List.map_congr_left
  intro g _
  by_cases h : g.ID ∈ ap <;> simp [h]

/-- The world after a successful metadata-table existence check, with
the remaining response stream `rs`. -/
def wPostCheck (w : World) (rs : List Resp) : World :=
  { w with resps := rs, logs := w.logs ++ [(LogLevel.print, "Migrations table found")] }

/-- C5: `Migrate()` computes the freshly synchronized statuses, and its
application loop runs over exactly the migrations that are then
Inactive, in strictly ascending id order and in the up direction; some
prefix of that pending list is fully applied — each migration's
transaction block committed, in order, and its status set Active — and
the call succeeds exactly when the prefix is the whole pending list
(so the first failure aborts the loop, keeping everything applied
earlier in the call applied), and never panics. -/
theorem c5_migrate_ascending_abort_on_failure (m : Migrator) (w : World) (rest : List Resp)
    (hnodup : (m.migrations.map Migration.ID).Nodup)
    (hresps : w.resps = Resp.okNil :: (List.replicate m.migrations.length Resp.okNil ++ rest))
    (hte : w.tableExists = true) :
    let mS : Migrator := { m with migrations := syncStatuses m.migrations w.applied }
    let pend := mS.Migrations Inactive
    let r := m.migrate w
    List.Chain' (· < ·) (pend.map Migration.ID) ∧
    ∃ k, k ≤ pend.length ∧
      r.2.2.events = w.events ++ (pend.take k).flatMap (fun g => txBlock m.adapter g .up) ∧
      (∀ g ∈ pend.take k, ∀ g2 ∈ r.2.1.migrations, g2.ID = g.ID → g2.Status = Active) ∧
      (r.1 = .ok () ↔ k = pend.length) ∧
      (∀ s, r.1 ≠ .crash s) := by
  intro mS pend r
  have hnodupS : (mS.migrations.map Migration.ID).Nodup := by
    show ((syncStatuses m.migrations w.applied).map Migration.ID).Nodup
    rw [syncStatuses_map_id]
    exact hnodup
  have h1 : m.migrationTableExists w
      = (.ok true, wPostCheck w (List.replicate m.migrations.length Resp.okNil ++ rest)) := by
    have hpop : popResp w
        = (Resp.okNil, { w with resps := List.replicate m.migrations.length Resp.okNil ++ rest }) := by
      simp [popResp, hresps]
    simp [Migrator.migrationTableExists, hpop, hte, logMsg, wPostCheck]
  have h2 : Migrator.getMigrationStatuses m
      (wPostCheck w (List.replicate m.migrations.length Resp.okNil ++ rest))
      = (.ok (), mS, wPostCheck w rest) := by
    rw [getMigrationStatuses_okPrefix m _ rest (by simp [wPostCheck])]
    simp [wPostCheck]
  have hmig : r = mS.migrateLoop (wPostCheck w rest) (mS.Migrations Inactive) := by
    show m.migrate w = _
    simp only [Migrator.migrate, h1, h2, if_true]
  refine ⟨Migrations_chain_lt mS Inactive hnodupS, ?_⟩
  obtain ⟨k, hk, hev, hst, hiff, hcr, _, _⟩ :=
    migrateLoop_spec (mS.Migrations Inactive) mS (wPostCheck w rest)
  refine ⟨k, hk, ?_, ?_, ?_, ?_⟩
  · rw [hmig]
    simpa [wPostCheck] using hev
  · intro g hg g2 hg2 hid
    rw [hmig] at hg2
    exact hst g hg g2 hg2 hid
  · rw [hmig]
    exact hiff
  · rw [hmig]
    exact hcr

lemma migrationTableExists_nil_true (m : Migrator) (w : World)
    (h : w.resps = []) (hte : w.tableExists = true) :
    m.migrationTableExists w = (.ok true, logMsg w .print "Migrations table found") := by
  simp [Migrator.migrationTableExists, popResp_nil w h, hte]

lemma migrateLoop_nil_resps : ∀ (gs : List Migration) (m : Migrator) (w : World),
    w.resps = [] → (∀ g ∈ gs, g.Up ≠ "") →
    (m.migrateLoop w gs).1 = .ok () ∧
    (m.migrateLoop w gs).2.1 = gs.foldl (fun acc g => setStatus acc g.ID Active) m ∧
    (m.migrateLoop w gs).2.2.resps = [] ∧
    (m.migrateLoop w gs).2.2.tableExists = w.tableExists := by
  intro gs
  induction gs with
  | nil => intro m w h _; simp [Migrator.migrateLoop, h]
  | cons g gs ih =>
    intro m w h hup
    have hg : scriptFor g .up ≠ "" := hup g (by simp)
    have ha := applyMigration_nil_resps m g .up w hg h
    simp only [Migrator.migrateLoop, ha]
    have hrec := ih (setStatus m g.ID (statusAfter .up))
      { w with logs := w.logs ++ [(LogLevel.printf, "Applying migration")],
               began := w.began + 1,
               events := w.events ++ txBlock m.adapter g .up,
               applied := appliedAfter .up g.ID w.applied }
      (by simp [h]) (fun g2 hg2 => hup g2 (by simp [hg2]))
    refine ⟨hrec.1, ?_, hrec.2.2.1, by rw [hrec.2.2.2]⟩
    rw [hrec.2.1]
    rfl

lemma mem_syncStatuses {g : Migration} {migs : List Migration} {ap : List Nat}
    (h : g ∈ syncStatuses migs ap) :
    ∃ g0 ∈ migs, g = (if g0.ID ∈ ap then { g0 with Status := Active } else g0) := by
  simpa [syncStatuses, eq_comm] using h

lemma foldl_setStatus_migrations : ∀ (gs : List Migration) (m : Migrator) (s : Int),
    (gs.foldl (fun acc g => setStatus acc g.ID s) m).migrations
      = m.migrations.map (fun g0 =>
          if g0.ID ∈ gs.map Migration.ID then { g0 with Status := s } else g0) := by
  intro gs
  induction gs with
  | nil =>
    intro m s
    simp
  | cons g gs ih =>
    intro m s
    rw [List.foldl_cons, ih (setStatus m g.ID s) s]
    simp only [setStatus, List.map_map]
    apply List.map_congr_left
    intro g0 _
    by_cases h1 : g0.ID = g.ID
    · by_cases h2 : g0.ID ∈ gs.map Migration.ID <;> simp [Function.comp, h1, h2]
    · by_cases h2 : g0.ID ∈ gs.map Migration.ID <;> simp [Function.comp, h1, h2]

lemma setActive_eq_self (g : Migration) (h : g.Status = Active) :
    { g with Status := Active } = g := by
  cases g
  simp only at h
  simp [h]

lemma syncStatuses_all_active (migs : List Migration) (ap : List Nat)
    (h : ∀ g ∈ migs, g.Status = Active) : syncStatuses migs ap = migs := by
  unfold syncStatuses
  have hpt : ∀ g ∈ migs, (if g.ID ∈ ap then { g with Status := Active } else g) = id g := by
    intro g hg
    by_cases hin : g.ID ∈ ap
    · simp [hin, setActive_eq_self g (h g hg)]
    · simp [hin]
  rw [List.map_congr_left hpt, List.map_id]

lemma Migrations_inactive_nil (m : Migrator)
    (h : ∀ g ∈ m.migrations, g.Status = Active) : m.Migrations Inactive = [] := by
  rw [List.eq_nil_iff_forall_not_mem]
  intro g hg
  rw [mem_Migrations] at hg
  have := h g hg.1
  have hsm := hg.2
  rw [statusMatches] at hsm
  simp [this, Active, Inactive] at hsm

/-- C6: running `Migrate()` to success on an all-ok database and then
running it again applies zero migrations the second time: the second
call succeeds, changes no metadata rows (`applied` unchanged), commits
no events (no script re-executed, no insert/delete), and leaves the
migrator untouched. -/
theorem c6_migrate_idempotent (m : Migrator) (w : World)
    (hresps : w.resps = []) (hte : w.tableExists = true)
    (hval : ∀ g ∈ m.migrations, g.Up ≠ "" ∧ (g.Status = Inactive ∨ g.Status = Active)) :
    let r1 := m.migrate w
    let r2 := r1.2.1.migrate r1.2.2
    r1.1 = .ok () ∧ r2.1 = .ok () ∧
    r2.2.1 = r1.2.1 ∧
    r2.2.2.events = r1.2.2.events ∧
    r2.2.2.applied = r1.2.2.applied := by
  intro r1 r2
  have hupS : ∀ g ∈ syncStatuses m.migrations w.applied, g.Up ≠ "" := by
    intro g hg
    obtain ⟨g0, hg0, hgeq⟩ := mem_syncStatuses hg
    by_cases hin : g0.ID ∈ w.applied <;>
      (rw [hgeq]; simp [hin]; exact (hval g0 hg0).1)
  have hstS : ∀ g ∈ syncStatuses m.migrations w.applied,
      g.Status = Inactive ∨ g.Status = Active := by
    intro g hg
    obtain ⟨g0, hg0, hgeq⟩ := mem_syncStatuses hg
    by_cases hin : g0.ID ∈ w.applied
    · rw [hgeq]; simp [hin]
    · rw [hgeq]; simp [hin]; exact (hval g0 hg0).2
  have h1 := migrationTableExists_nil_true m w hresps hte
  have h2 := getMigrationStatuses_nil m (logMsg w .print "Migrations table found")
    (by simp [logMsg, hresps])
  have hS : (logMsg w .print "Migrations table found").applied = w.applied := by simp [logMsg]
  rw [hS] at h2
  have hup2 : ∀ g ∈ ({ m with migrations := syncStatuses m.migrations w.applied } :
      Migrator).Migrations Inactive, g.Up ≠ "" := by
    intro g hg
    rw [mem_Migrations] at hg
    exact hupS g hg.1
  have hloop := migrateLoop_nil_resps
    (({ m with migrations := syncStatuses m.migrations w.applied } : Migrator).Migrations Inactive)
    { m with migrations := syncStatuses m.migrations w.applied }
    (logMsg w .print "Migrations table found")
    (by simp [logMsg, hresps]) hup2
  have hmig : r1 = Migrator.migrateLoop
      { m with migrations := syncStatuses m.migrations w.applied }
      (logMsg w .print "Migrations table found")
      (({ m with migrations := syncStatuses m.migrations w.applied } : Migrator).Migrations
        Inactive) := by
    show m.migrate w = _
    simp only [Migrator.migrate, h1, h2, if_true]
  -- everything is Active after the first run
  have hall : ∀ g ∈ r1.2.1.migrations, g.Status = Active := by
    rw [hmig, hloop.2.1]
    rw [foldl_setStatus_migrations]
    intro g hg
    rw [List.mem_map] at hg
    obtain ⟨g0, hg0, rfl⟩ := hg
    by_cases hin : g0.ID ∈
        ((({ m with migrations := syncStatuses m.migrations w.applied } : Migrator).Migrations
          Inactive).map Migration.ID)
    · simp [hin]
    · simp only [hin, if_false]
      rcases hstS g0 hg0 with h0 | h0
      · exfalso
        apply hin
        rw [List.mem_map]
        refine ⟨g0, ?_, rfl⟩
        rw [mem_Migrations]
        exact ⟨hg0, by simp [statusMatches, h0, Inactive]⟩
      · exact h0
  have hr1resps : r1.2.2.resps = [] := by rw [hmig]; exact hloop.2.2.1
  have hr1te : r1.2.2.tableExists = true := by
    rw [hmig, hloop.2.2.2]
    simp [logMsg, hte]
  have hout1 : r1.1 = .ok () := by rw [hmig]; exact hloop.1
  -- second run
  have h1' := migrationTableExists_nil_true r1.2.1 r1.2.2 hr1resps hr1te
  have h2' := getMigrationStatuses_nil r1.2.1
    (logMsg r1.2.2 .print "Migrations table found") (by simp [logMsg, hr1resps])
  have hsync2 : syncStatuses r1.2.1.migrations
      (logMsg r1.2.2 .print "Migrations table found").applied = r1.2.1.migrations :=
    syncStatuses_all_active _ _ hall
  rw [hsync2] at h2'
  have hm1eta : ({ r1.2.1 with migrations := r1.2.1.migrations } : Migrator) = r1.2.1 := rfl
  rw [hm1eta] at h2'
  have hpend2 : r1.2.1.Migrations Inactive = [] := Migrations_inactive_nil r1.2.1 hall
  have hmig2 : r2 = (.ok (), r1.2.1, logMsg r1.2.2 .print "Migrations table found") := by
    show r1.2.1.migrate r1.2.2 = _
    simp only [Migrator.migrate, h1', h2', if_true, hpend2, Migrator.migrateLoop]
  refine ⟨hout1, ?_, ?_, ?_, ?_⟩ <;> rw [hmig2] <;> simp [logMsg]

lemma rollbackLoop_all_ok : ∀ (j : Nat) (migs : List Migration) (m : Migrator) (w : World),
    w.resps = [] → (∀ g ∈ migs, g.Down ≠ "") → j ≤ migs.length →
    (m.rollbackLoop w migs (-1) j).1 = .ok () ∧
    (m.rollbackLoop w migs (-1) j).2.1
      = (migs.take j).reverse.foldl (fun acc g => setStatus acc g.ID Inactive) m ∧
    (m.rollbackLoop w migs (-1) j).2.2.events
      = w.events ++ (migs.take j).reverse.flatMap (fun g => txBlock m.adapter g .down) := by
  intro j
  induction j with
  | zero =>
    intro migs m w _ _ _
    simp [Migrator.rollbackLoop]
  | succ j ih =>
    intro migs m w h hdown hj
    have hjlt : j < migs.length := hj
    have hne1 : ¬((j : Int) = -1) := by omega
    have hne2 : ¬((migs.length : Int) ≤ (j : Int)) := by
      simp only [not_le]
      exact_mod_cast hjlt
    have hmem : migs.getD j defaultMigration ∈ migs := by
      rw [List.getD_eq_getElem migs defaultMigration hjlt]
      exact List.getElem_mem hjlt
    have hg : scriptFor (migs.getD j defaultMigration) .down ≠ "" := hdown _ hmem
    have ha := applyMigration_nil_resps m (migs.getD j defaultMigration) .down w hg h
    simp only [Migrator.rollbackLoop, if_neg hne1, if_neg hne2, ha]
    have hrec := ih migs (setStatus m (migs.getD j defaultMigration).ID (statusAfter .down))
      { w with logs := w.logs ++ [(LogLevel.printf, "Applying migration")],
               began := w.began + 1,
               events := w.events ++ txBlock m.adapter (migs.getD j defaultMigration) .down,
               applied := appliedAfter .down (migs.getD j defaultMigration).ID w.applied }
      (by simp [h]) hdown (Nat.le_of_lt hjlt)
    have htake : (migs.take (j + 1)).reverse
        = migs.getD j defaultMigration :: (migs.take j).reverse := by
      rw [List.take_succ]
      rw [List.getD_eq_getElem migs defaultMigration hjlt]
      simp [List.getElem?_eq_getElem hjlt]
    refine ⟨hrec.1, ?_, ?_⟩
    · rw [hrec.2.1, htake]
      rfl
    · rw [hrec.2.2, htake]
      simp [setStatus_adapter, List.append_assoc]

lemma rollbackLoop_crash : ∀ (j : Nat) (migs : List Migration) (m : Migrator) (w : World)
    (last : Int), w.resps = [] → (∀ g ∈ migs, g.Down ≠ "") → j ≤ migs.length → last < -1 →
    (m.rollbackLoop w migs last j).1 = .crash "runtime error: index out of range" := by
  intro j
  induction j with
  | zero =>
    intro migs m w last _ _ _ hlast
    have : ¬((-1 : Int) = last) := by omega
    simp [Migrator.rollbackLoop, this]
  | succ j ih =>
    intro migs m w last h hdown hj hlast
    have hjlt : j < migs.length := hj
    have hne1 : ¬((j : Int) = last) := by omega
    have hne2 : ¬((migs.length : Int) ≤ (j : Int)) := by
      simp only [not_le]
      exact_mod_cast hjlt
    have hmem : migs.getD j defaultMigration ∈ migs := by
      rw [List.getD_eq_getElem migs defaultMigration hjlt]
      exact List.getElem_mem hjlt
    have hg : scriptFor (migs.getD j defaultMigration) .down ≠ "" := hdown _ hmem
    have ha := applyMigration_nil_resps m (migs.getD j defaultMigration) .down w hg h
    simp only [Migrator.rollbackLoop, if_neg hne1, if_neg hne2, ha]
    exact ih migs _ _ last (by simp [h]) hdown (Nat.le_of_lt hjlt) hlast

lemma statusMatches_iff (s : Int) (g : Migration) :
    statusMatches s g = true ↔ s = -1 ∨ g.Status = s := by
  simp [statusMatches]

lemma rollback_fold_active_nil (mS : Migrator) :
    (((mS.Migrations Active).reverse.foldl (fun acc g => setStatus acc g.ID Inactive)
      mS).Migrations Active) = [] := by
  rw [List.eq_nil_iff_forall_not_mem]
  intro g hg
  rw [mem_Migrations] at hg
  obtain ⟨hgmem, hgst⟩ := hg
  rw [foldl_setStatus_migrations] at hgmem
  rw [List.mem_map] at hgmem
  obtain ⟨g0, hg0, rfl⟩ := hgmem
  by_cases hin : g0.ID ∈ ((mS.Migrations Active).reverse.map Migration.ID)
  · rw [if_pos hin] at hgst
    rw [statusMatches_iff] at hgst
    simp [Active, Inactive] at hgst
  · rw [if_neg hin] at hgst
    apply hin
    rw [List.map_reverse, List.mem_reverse, List.mem_map]
    refine ⟨g0, ?_, rfl⟩
    rw [mem_Migrations]
    exact ⟨hg0, hgst⟩

/-- C1 counterexample: a migrator with exactly one Active migration,
asked to roll back two.  The loop's stop index is `-2`, so after rolling
back the single Active migration the loop visits index `-1`:
`migrations[-1]` is an out-of-range access (a Go runtime panic), not the
claimed clean no-error return. -/
theorem c1_rollbackN_overrun_counterexample :
    (mOne.rollbackN 2
        { resps := [], tableExists := true, applied := [1], events := [], logs := [],
          began := 0 }).1
      = .crash "runtime error: index out of range" := by
  decide

/-- C1 amended: after the status refresh, `RollbackN(n)` (with all
Active down-scripts present and an all-ok database) rolls back exactly
the Active migrations in descending id order, returns no error, and
leaves zero Active migrations — when `n` EQUALS the Active count (and
trivially when there are zero Active migrations, for any `n`); but for
`n` strictly greater than a positive Active count the loop, after
rolling back every Active migration, accesses index `-1`: an
out-of-range list access (runtime panic) instead of a clean return. -/
theorem c1_rollbackN_exact_count_ok_overrun_crashes (m : Migrator) (w : World)
    (hresps : w.resps = []) :
    let mS : Migrator := { m with migrations := syncStatuses m.migrations w.applied }
    let acts := mS.Migrations Active
    (∀ g ∈ acts, g.Down ≠ "") →
    ∀ n : Int,
      (acts.length = 0 → (m.rollbackN n w).1 = .ok ()) ∧
      (n = (acts.length : Int) →
        (m.rollbackN n w).1 = .ok () ∧
        (m.rollbackN n w).2.1.Migrations Active = [] ∧
        (m.rollbackN n w).2.2.events
          = w.events ++ acts.reverse.flatMap (fun g => txBlock m.adapter g .down)) ∧
      ((acts.length : Int) < n → 0 < acts.length →
        (m.rollbackN n w).1 = .crash "runtime error: index out of range") := by
  intro mS acts hdown n
  have hsync := getMigrationStatuses_nil m w hresps
  have hred : m.rollbackN n w
      = (if acts.length = 0 then ((.ok (), mS, w) : Outcome Unit × Migrator × World)
         else mS.rollbackLoop w acts ((acts.length : Int) - 1 - n) acts.length) := by
    show Migrator.rollbackN m n w = _
    simp only [Migrator.rollbackN, hsync]
  refine ⟨?_, ?_, ?_⟩
  · intro h0
    rw [hred, if_pos h0]
  · intro hn
    by_cases h0 : acts.length = 0
    · have hanil : acts = [] := List.length_eq_zero.mp h0
      rw [hred, if_pos h0]
      refine ⟨rfl, ?_, by simp [hanil]⟩
      show mS.Migrations Active = []
      have : mS.Migrations Active = acts := rfl
      rw [this, hanil]
    · have hlast : (acts.length : Int) - 1 - n = -1 := by omega
      obtain ⟨hok, hmF, hev⟩ := rollbackLoop_all_ok acts.length acts mS w hresps hdown le_rfl
      rw [hred, if_neg h0, hlast]
      refine ⟨hok, ?_, ?_⟩
      · rw [hmF, List.take_length]
        exact rollback_fold_active_nil mS
      · rw [hev, List.take_length]
  · intro hlt hpos
    have hlast : (acts.length : Int) - 1 - n < -1 := by omega
    rw [hred, if_neg (Nat.pos_iff_ne_zero.mp hpos)]
    exact rollbackLoop_crash acts.length acts mS w _ hresps hdown le_rfl hlast

/-- The quiet world with migration 1 recorded as applied. -/
def wAct1 : World :=
  { resps := [], tableExists := true, applied := [1], events := [], logs := [], began := 0 }

theorem c1_rollbackN_exact_count_witness :
    (let mS : Migrator := { mOne with migrations := syncStatuses mOne.migrations wAct1.applied }
     let acts := mS.Migrations Active
     (mOne.rollbackN 1 wAct1).1 = .ok () ∧
     (mOne.rollbackN 1 wAct1).2.1.Migrations Active = [] ∧
     (mOne.rollbackN 1 wAct1).2.2.events
       = wAct1.events ++ acts.reverse.flatMap (fun g => txBlock mOne.adapter g .down)) :=
  ((c1_rollbackN_exact_count_ok_overrun_crashes mOne wAct1 rfl) (by decide) 1).2.1 (by decide)

/-- Two pending migrations, stored out of id order. -/
def gUp1 : Migration :=
  { ID := 1, Name := "a", Status := 0, Up := "u1", Down := "d1", Source := "" }

/-- The second of the two pending migrations. -/
def gUp2 : Migration :=
  { ID := 2, Name := "b", Status := 0, Up := "u2", Down := "d2", Source := "" }

/-- Migrator holding the two migrations in descending id order. -/
def mTwo : Migrator := { migrations := [gUp2, gUp1], adapter := .postgres }

/-- World with exactly the success responses `Migrate()` consumes for
`mTwo` before its application loop. -/
def wSync : World :=
  { resps := [.okNil, .okNil, .okNil], tableExists := true, applied := [], events := [],
    logs := [], began := 0 }

theorem c5_migrate_ascending_witness :
    (let mS : Migrator := { mTwo with migrations := syncStatuses mTwo.migrations wSync.applied }
     let pend := mS.Migrations Inactive
     let r := mTwo.migrate wSync
     List.Chain' (· < ·) (pend.map Migration.ID) ∧
     ∃ k, k ≤ pend.length ∧
       r.2.2.events = wSync.events ++ (pend.take k).flatMap (fun g => txBlock mTwo.adapter g .up) ∧
       (∀ g ∈ pend.take k, ∀ g2 ∈ r.2.1.migrations, g2.ID = g.ID → g2.Status = Active) ∧
       (r.1 = .ok () ↔ k = pend.length) ∧
       (∀ s, r.1 ≠ .crash s)) :=
  c5_migrate_ascending_abort_on_failure mTwo wSync [] (by decide) (by decide) rfl

theorem c6_migrate_idempotent_witness :
    (let r1 := mTwo.migrate wQuiet
     let r2 := r1.2.1.migrate r1.2.2
     r1.1 = .ok () ∧ r2.1 = .ok () ∧
     r2.2.1 = r1.2.1 ∧
     r2.2.2.events = r1.2.2.events ∧
     r2.2.2.applied = r1.2.2.applied) :=
  c6_migrate_idempotent mTwo wQuiet rfl rfl (by decide)

/-- C8: loading the sorted glob result for a directory holding
`5_foo_up.sql` / `5_foo_down.sql` yields exactly one Migration with id
5, name "foo", both scripts from the respective files and the two
paths accumulated in `Source` joined by one space; loading
`5_foo_up.sql` with `6_bar_down.sql` yields two separate Migrations. -/
theorem c8_load_file_pairs :
    MigrationsFromPath "m" [("m/5_foo_down.sql", "D"), ("m/5_foo_up.sql", "U")]
      = .ok [{ ID := 5, Name := "foo", Status := Inactive, Up := "U", Down := "D",
               Source := "m/5_foo_down.sql m/5_foo_up.sql" }] ∧
    MigrationsFromPath "m" [("m/5_foo_up.sql", "U"), ("m/6_bar_down.sql", "D")]
      = .ok [{ ID := 5, Name := "foo", Status := Inactive, Up := "U", Down := "",
               Source := "m/5_foo_up.sql" },
             { ID := 6, Name := "bar", Status := Inactive, Up := "", Down := "D",
               Source := "m/6_bar_down.sql" }] := by
  decide

/-- C9 counterexample: two files with the same id 5 but different name
components, `5_bar_down.sql` and `5_foo_up.sql`, ARE merged by the
loader into a single Migration (named after the first file seen) — the
name components are never compared, refuting the claim that the loader
never produces a Migration from two same-id files whose names differ. -/
theorem c9_counterexample :
    parseMigrationPath "m/5_bar_down.sql" = some (5, .down, "bar") ∧
    parseMigrationPath "m/5_foo_up.sql" = some (5, .up, "foo") ∧
    MigrationsFromPath "m" [("m/5_bar_down.sql", "D"), ("m/5_foo_up.sql", "U")]
      = .ok [{ ID := 5, Name := "bar", Status := Inactive, Up := "U", Down := "D",
               Source := "m/5_bar_down.sql m/5_foo_up.sql" }] := by
  decide

/-- A produced pair is explained by one matching file: the migration's
id and name both come from a single file whose name parses to them. -/
def GoodEntry (files : List (String × String)) (p : Nat × Migration) : Prop :=
  ∃ f ∈ files, ∃ t, parseMigrationPath f.1 = some (p.2.ID, t, p.2.Name)

lemma fillMigration_id_name (g : Migration) (t : MigrationType) (sql path : String) :
    (fillMigration g t sql path).ID = g.ID ∧ (fillMigration g t sql path).Name = g.Name := by
  simp [fillMigration]

lemma foldl_loadStep_good : ∀ (fs : List (String × String)) (acc : List (Nat × Migration))
    (files : List (String × String)),
    (∀ f ∈ fs, f ∈ files) → (∀ p ∈ acc, GoodEntry files p) →
    ∀ p ∈ fs.foldl loadStep acc, GoodEntry files p := by
  intro fs
  induction fs with
  | nil => intro acc files _ hacc p hp; exact hacc p hp
  | cons f fs ih =>
    intro acc files hsub hacc
    rw [List.foldl_cons]
    apply ih (loadStep acc f) files (fun f2 hf2 => hsub f2 (by simp [hf2]))
    intro p hp
    unfold loadStep at hp
    cases hparse : parseMigrationPath f.1 with
    | none => rw [hparse] at hp; exact hacc p hp
    | some r =>
      obtain ⟨num, t, name⟩ := r
      simp only [hparse] at hp
      cases hlook : (acc.lookup num) with
      | some g0 =>
        simp only [hlook] at hp
        rw [List.mem_map] at hp
        obtain ⟨p0, hp0, rfl⟩ := hp
        by_cases hid : p0.1 = num
        · simp only [hid, if_true]
          obtain ⟨f0, hf0, t0, hpf0⟩ := hacc p0 hp0
          exact ⟨f0, hf0, t0, by
            rw [(fillMigration_id_name p0.2 t f.2 f.1).1,
              (fillMigration_id_name p0.2 t f.2 f.1).2]
            exact hpf0⟩
        · simp only [hid, if_false]
          exact hacc p0 hp0
      | none =>
        simp only [hlook] at hp
        rw [List.mem_append] at hp
        rcases hp with hp | hp
        · exact hacc p hp
        · rw [List.mem_singleton] at hp
          subst hp
          exact ⟨f, hsub f (by simp), t, by simpa [newMigration] using hparse⟩

/-- C9 amended: the loader takes a produced Migration's id and name
from the first matching file seen with that id — every Migration in a
successful load is explained by a single file whose name parses to its
id and name — while a later file with the same id only contributes its
script and source path; the name components of same-id files are never
compared, so files with differing names are silently merged (see the
counterexample). -/
theorem c9_name_from_first_file_no_cross_check (path : String)
    (files : List (String × String)) (gs : List Migration)
    (h : MigrationsFromPath path files = .ok gs) :
    ∀ g ∈ gs, ∃ f ∈ files, ∃ t, parseMigrationPath f.1 = some (g.ID, t, g.Name) := by
  intro g hg
  unfold MigrationsFromPath at h
  by_cases hpath : path.data.length = 0
  · rw [if_pos hpath] at h
    exact absurd h (by simp)
  · rw [if_neg hpath] at h
    by_cases hval : ((files.foldl loadStep []).map (fun p => p.2)).all Migration.Validate
    · rw [if_pos hval] at h
      have hgs : gs = (files.foldl loadStep []).map (fun p => p.2) := by
        have := h
        simp at this
        exact this.symm
      rw [hgs] at hg
      rw [List.mem_map] at hg
      obtain ⟨p, hp, rfl⟩ := hg
      exact foldl_loadStep_good files [] files (fun f hf => hf) (by simp) p hp
    · rw [if_neg hval] at h
      exact absurd h (by simp)

/-- The merged migration from the C9 counterexample. -/
def gMerged : Migration :=
  { ID := 5, Name := "bar", Status := Inactive, Up := "U", Down := "D",
    Source := "m/5_bar_down.sql m/5_foo_up.sql" }

theorem c9_name_from_first_file_witness :
    ∃ f ∈ [("m/5_bar_down.sql", "D"), ("m/5_foo_up.sql", "U")], ∃ t,
      parseMigrationPath f.1 = some (gMerged.ID, t, gMerged.Name) :=
  c9_name_from_first_file_no_cross_check "m"
    [("m/5_bar_down.sql", "D"), ("m/5_foo_up.sql", "U")] [gMerged]
    (by decide) gMerged (by simp)

/-- C10: `MigrationsFromPath` indexes the last byte of the path before
any filesystem access: with the empty path this access is out of range
— the result is a runtime panic whatever the filesystem contains — and
with any non-empty path no panic is possible at all. -/
theorem c10_empty_path_out_of_range :
    (∀ fs : List (String × String),
      MigrationsFromPath "" fs = .crash "runtime error: index out of range") ∧
    (∀ (path : String), path ≠ "" → ∀ (fs : List (String × String)) (msg : String),
      MigrationsFromPath path fs ≠ .crash msg) := by
  constructor
  · intro fs
    rfl
  · intro path hp fs msg
    have hne : ¬(path.data.length = 0) := by
      intro h0
      apply hp
      have hdata : path.data = [] := List.length_eq_zero.mp h0
      cases path with
      | mk d =>
        simp only at hdata
        rw [hdata]
    unfold MigrationsFromPath
    rw [if_neg hne]
    by_cases hval : ((fs.foldl loadStep []).map (fun p => p.2)).all Migration.Validate
    · rw [if_pos hval]; simp
    · rw [if_neg hval]; simp

theorem c10_empty_path_out_of_range_witness :
    MigrationsFromPath "m" [] ≠ .crash "runtime error: index out of range" :=
  c10_empty_path_out_of_range.2 "m" (by decide) [] "runtime error: index out of range"
